import Mathlib

/-!
# Conditional-visibility evaluator of the Airtable form builder

A shallow embedding of `shouldShowQuestion`
(`src/frontend/src/utils/conditionalLogic.js`) together with the JavaScript
primitives it is built from: property reads, truthiness, strict equality
against string literals, `String(...)`, `Array.isArray`, `Array.prototype.map`,
`some`, `every` and `String.prototype.includes`; of the question loop of the
submit route (`src/backend/routes/forms.js`); of the client-side `validate`
of the form viewer (`src/frontend/src/pages/FormViewer.jsx`); and of the
handlers of the form builder (`src/frontend/src/pages/FormBuilder.jsx`).

Values are the ones the code can meet: `undefined`, everything JSON can carry
(rule sets are stored as `Mixed` and answers arrive as a JSON body), and the
members of `Object.prototype` that a property read on a plain object
inherits.  Numbers are the safe integers (magnitude below `2 ^ 53`), whose
`String` form is the decimal numeral.  Strings are sequences of Unicode scalar
values, on which the code-unit substring test of `includes` is the substring
test on scalar values.  A thrown `TypeError` is the `error` branch of `Except`.
-/

namespace Airtable

/-! ## Values -/

/-- The exception a JavaScript primitive used by the evaluator can throw. -/
inductive JsError where
  | typeError
  deriving DecidableEq, Repr

deriving instance DecidableEq for Except

/-- JSON data: what a stored rule set and a submitted answers body consist of. -/
inductive Json where
  | null
  | bool (b : Bool)
  | num (n : Int)
  | str (s : String)
  | arr (items : List Json)
  | obj (props : List (String × Json))

/-- A JavaScript value as seen by the evaluator: `undefined`, JSON data, a
built-in function inherited from `Object.prototype`, or `Object.prototype`
itself (what reading `__proto__` on a plain object yields). -/
inductive JsVal where
  | undefined
  | json (j : Json)
  | builtin (name : String)
  | objectPrototype

/-- The own enumerable properties of the plain object passed as
`answersSoFar`; the first binding of a key is the effective one. -/
abbrev AnswerMap := List (String × Json)

/-! ## JavaScript primitives -/

/-- Decimal numeral of an integer-valued number: `Number::toString`. -/
def numberToString : Int → String
  | Int.ofNat m => Nat.repr m
  | Int.negSucc m => "-" ++ Nat.repr (m + 1)

/-- The separator-joined text of `Array.prototype.join(",")`. -/
def joinComma : List String → String
  | [] => ""
  | [s] => s
  | s :: rest => s ++ "," ++ joinComma rest

mutual
/-- The abstract operation `ToString` on JSON data.  An array is joined with
commas, `null` elements giving the empty string; a plain object gives
`[object Object]` unless it shadows `toString` with an own (hence
non-callable) property, in which case `OrdinaryToPrimitive` finds no usable
method and throws. -/
def Json.toStr : Json → Except JsError String
  | .null => .ok "null"
  | .bool true => .ok "true"
  | .bool false => .ok "false"
  | .num n => .ok (numberToString n)
  | .str s => .ok s
  | .arr items =>
    match Json.joinParts items with
    | .ok parts => .ok (joinComma parts)
    | .error e => .error e
  | .obj props =>
    if props.any (fun p => p.1 == "toString") then .error .typeError
    else .ok "[object Object]"
/-- The element texts `Array.prototype.join` concatenates, left to right. -/
def Json.joinParts : List Json → Except JsError (List String)
  | [] => .ok []
  | .null :: rest =>
    match Json.joinParts rest with
    | .ok ps => .ok ("" :: ps)
    | .error e => .error e
  | x :: rest =>
    match Json.toStr x with
    | .error e => .error e
    | .ok s =>
      match Json.joinParts rest with
      | .ok ps => .ok (s :: ps)
      | .error e => .error e
end

/-- The call `String(v)`. -/
def JsVal.toStr : JsVal → Except JsError String
  | .undefined => .ok "undefined"
  | .json j => j.toStr
  | .builtin name => .ok ("function " ++ name ++ "() \x7b [native code] \x7d")
  | .objectPrototype => .ok "[object Object]"

/-- Truthiness (`ToBoolean`), as tested by `!v` and `v || w`. -/
def JsVal.truthy : JsVal → Bool
  | .undefined => false
  | .json .null => false
  | .json (.bool b) => b
  | .json (.num n) => n != 0
  | .json (.str s) => s != ""
  | .json (.arr _) => true
  | .json (.obj _) => true
  | .builtin _ => true
  | .objectPrototype => true

/-- The test `v === "lit"` against a string literal. -/
def JsVal.strictEqStr : JsVal → String → Bool
  | .json (.str s), lit => s == lit
  | _, _ => false

/-- The test `Array.isArray(v)`, returning the elements of an array. -/
def JsVal.asArray : JsVal → Option (List Json)
  | .json (.arr items) => some items
  | _ => none

/-- The properties every plain object inherits from `Object.prototype`. -/
def objectPrototypeMember (key : String) : JsVal :=
  if key == "constructor" then .builtin "Object"
  else if key == "__proto__" then .objectPrototype
  else if key == "hasOwnProperty" || key == "isPrototypeOf"
      || key == "propertyIsEnumerable" || key == "toString"
      || key == "toLocaleString" || key == "valueOf"
      || key == "__defineGetter__" || key == "__defineSetter__"
      || key == "__lookupGetter__" || key == "__lookupSetter__" then .builtin key
  else .undefined

/-- Property read `o[key]` on a plain object with own properties `props`:
the own property if there is one, else what `Object.prototype` provides. -/
def getProperty (props : List (String × Json)) (key : String) : JsVal :=
  match props.lookup key with
  | some v => .json v
  | none => objectPrototypeMember key

/-- Property read `base.name` for the names the code spells out (`conditions`,
`logic`, `questionKey`, `operator`, `value` in the evaluator, `options`,
`choices` and `name` on JSON data in the submit route), none of which a
built-in prototype of these values defines: it throws on `undefined` and
`null`, reads a plain object, and is `undefined` on every other value. -/
def readField (base : JsVal) (name : String) : Except JsError JsVal :=
  match base with
  | .undefined => .error .typeError
  | .json .null => .error .typeError
  | .json (.obj props) => .ok (getProperty props name)
  | _ => .ok .undefined

/-- Whether `t` occurs in `s` as a contiguous run of characters. -/
def listIncludes (s t : List Char) : Bool :=
  match s with
  | [] => t.isPrefixOf []
  | c :: s' => t.isPrefixOf (c :: s') || listIncludes s' t

/-- The method call `s.includes(t)`. -/
def includes (s t : String) : Bool :=
  listIncludes s.data t.data

/-- The test `answerValue === undefined || answerValue === null ||
answerValue === ''`. -/
def isMissing : JsVal → Bool
  | .undefined => true
  | .json .null => true
  | .json (.str s) => s == ""
  | _ => false

/-! ## The evaluator -/

/-- The callback of `answerValue.some(item => String(item).includes(String(value)))`,
run over the elements from left to right and stopping at the first hit. -/
def someIncludes (value : JsVal) : List Json → Except JsError Bool
  | [] => .ok false
  | item :: rest =>
    match item.toStr with
    | .error e => .error e
    | .ok s =>
      match value.toStr with
      | .error e => .error e
      | .ok v => if includes s v then .ok true else someIncludes value rest

/-- The `switch (operator)` of the evaluator, reached with a present answer. -/
def applyOperator (operator value answerValue : JsVal) : Except JsError Bool :=
  if operator.strictEqStr "equals" then
    match answerValue.toStr with
    | .error e => .error e
    | .ok s =>
      match value.toStr with
      | .error e => .error e
      | .ok v => .ok (s == v)
  else if operator.strictEqStr "notEquals" then
    match answerValue.toStr with
    | .error e => .error e
    | .ok s =>
      match value.toStr with
      | .error e => .error e
      | .ok v => .ok (s != v)
  else if operator.strictEqStr "contains" then
    match answerValue.asArray with
    | some items => someIncludes value items
    | none =>
      match answerValue.toStr with
      | .error e => .error e
      | .ok s =>
        match value.toStr with
        | .error e => .error e
        | .ok v => .ok (includes s v)
  else .ok false

/-- The arrow function mapped over `rules.conditions`: the individual result
of one condition.  Destructuring throws on a `null` entry, and the property
key of the answer lookup is `String(questionKey)`. -/
def conditionResult (answersSoFar : AnswerMap) (condition : Json) : Except JsError Bool :=
  match readField (.json condition) "questionKey" with
  | .error e => .error e
  | .ok questionKey =>
    match readField (.json condition) "operator" with
    | .error e => .error e
    | .ok operator =>
      match readField (.json condition) "value" with
      | .error e => .error e
      | .ok value =>
        match questionKey.toStr with
        | .error e => .error e
        | .ok key =>
          let answerValue := getProperty answersSoFar key
          if isMissing answerValue then .ok false
          else applyOperator operator value answerValue

/-- The call `rules.conditions.map(condition => ...)`: every entry is
evaluated, in order, before the results are combined. -/
def mapConditions (answersSoFar : AnswerMap) : List Json → Except JsError (List Bool)
  | [] => .ok []
  | condition :: rest =>
    match conditionResult answersSoFar condition with
    | .error e => .error e
    | .ok r =>
      match mapConditions answersSoFar rest with
      | .error e => .error e
      | .ok rs => .ok (r :: rs)

/-- The function `shouldShowQuestion(rules, answersSoFar)`. -/
def shouldShowQuestion (rules : JsVal) (answersSoFar : AnswerMap) : Except JsError Bool :=
  if !rules.truthy then .ok true
  else
    match readField rules "conditions" with
    | .error e => .error e
    | .ok conditions =>
      if !conditions.truthy then .ok true
      else
        match conditions.asArray with
        | none => .ok true
        | some cs =>
          if cs.length == 0 then .ok true
          else
            match readField rules "logic" with
            | .error e => .error e
            | .ok l =>
              let logic := if l.truthy then l else .json (.str "AND")
              match mapConditions answersSoFar cs with
              | .error e => .error e
              | .ok conditionResults =>
                if logic.strictEqStr "OR" then .ok (conditionResults.any (fun result => result == true))
                else .ok (conditionResults.all (fun result => result == true))

/-! ## Shapes of the data model -/

/-- The condition `{ questionKey, operator, value }`. -/
def mkCondition (questionKey operator : String) (value : Json) : Json :=
  .obj [("questionKey", .str questionKey), ("operator", .str operator), ("value", value)]

/-- The rule set `{ logic, conditions }`; `none` is a rule set that omits
`logic`. -/
def mkRules (logic : Option Json) (conditions : Json) : JsVal :=
  match logic with
  | some l => .json (.obj [("logic", l), ("conditions", conditions)])
  | none => .json (.obj [("conditions", conditions)])

/-- An answer is present when it is none of `undefined`, `null` and the empty
string. -/
def Present (v : JsVal) : Prop :=
  v ≠ .undefined ∧ v ≠ .json .null ∧ v ≠ .json (.str "")

/-- Whether the combination step takes the `some` branch: `rules.logic || 'AND'`
is strictly equal to `'OR'`. -/
def logicIsOr (logic : Option Json) : Bool :=
  match logic with
  | some l => (JsVal.json l).strictEqStr "OR"
  | none => false

/-! ## The submit-time evaluator

The submit route imports `shouldShowQuestion` from
`backend/utils/conditionalLogic.js`.  Its behaviour is taken from the
algorithm of the specification (section 4.1), which has no error condition:
a malformed condition resolves to false. -/

/-- The field `name` of a record, `undefined` when the value is not a record
or lacks the field. -/
def recordField (v : JsVal) (name : String) : JsVal :=
  match v with
  | .json (.obj props) =>
    match props.lookup name with
    | some x => .json x
    | none => .undefined
  | _ => .undefined

/-- The answer a mapping from questionKey to answer value holds for `key`,
`undefined` when the mapping omits the key. -/
def answerOf (answers : AnswerMap) (key : String) : JsVal :=
  match answers.lookup key with
  | some v => .json v
  | none => .undefined

/-- Whether the string form of `x` contains the string form of `value`; false
when one of them has no string form. -/
def stringFormContains (x value : JsVal) : Bool :=
  match x.toStr, value.toStr with
  | .ok s, .ok v => includes s v
  | _, _ => false

/-- Modelled from the spec: step 4 of the algorithm of section 4.1, the result
of one condition in the submit-time copy of `shouldShowQuestion`
(`backend/utils/conditionalLogic.js`).  A missing answer gives false whatever
the operator; `equals` compares the string casts, `notEquals` negates that,
`contains` asks whether any element of a sequence answer, or else the answer
itself, contains the value as a substring; any other operator gives false, and
so does a malformed condition. -/
def backendConditionResult (answers : AnswerMap) (condition : Json) : Bool :=
  match (recordField (.json condition) "questionKey").toStr with
  | .error _ => false
  | .ok key =>
    let operator := recordField (.json condition) "operator"
    let value := recordField (.json condition) "value"
    let answerValue := answerOf answers key
    if isMissing answerValue then false
    else if operator.strictEqStr "equals" then
      match answerValue.toStr, value.toStr with
      | .ok s, .ok v => s == v
      | _, _ => false
    else if operator.strictEqStr "notEquals" then
      match answerValue.toStr, value.toStr with
      | .ok s, .ok v => s != v
      | _, _ => false
    else if operator.strictEqStr "contains" then
      match answerValue.asArray with
      | some items => items.any (fun item => stringFormContains (.json item) value)
      | none => stringFormContains answerValue value
    else false

/-- Modelled from the spec: the submit-time copy of `shouldShowQuestion`
(`backend/utils/conditionalLogic.js`, imported by the submit route), following
steps 1 to 5 of section 4.1.  No rule set, or conditions that are missing, not
a sequence or empty, give true; `logic` defaults to "AND" when absent; the
results of the conditions are combined by "at least one" under "OR" and by
"all" otherwise.  It returns a boolean on every input. -/
def backendShouldShowQuestion (rules : JsVal) (answers : AnswerMap) : Bool :=
  match rules with
  | .undefined => true
  | .json .null => true
  | _ =>
    match (recordField rules "conditions").asArray with
    | none => true
    | some [] => true
    | some (c :: cs) =>
      let logic :=
        match recordField rules "logic" with
        | .undefined => JsVal.json (.str "AND")
        | .json .null => JsVal.json (.str "AND")
        | l => l
      if logic.strictEqStr "OR" then (c :: cs).any (backendConditionResult answers)
      else (c :: cs).all (backendConditionResult answers)

/-! ## Forms -/

/-- A question of a form (`questionSchema` of `backend/models/Form.js`, and
the objects the form builder keeps in `selectedFields`). -/
structure Question where
  questionKey : String
  airtableFieldId : String
  label : String
  type : String
  required : Bool
  conditionalRules : Json
  options : Json

/-- A field of the chosen Airtable table as the form builder lists it. -/
structure AirtableField where
  id : String
  name : String
  mappedType : String
  options : Json

/-! ## The form builder -/

/-- The handler `handleFieldToggle(field)` of `FormBuilder.jsx`, as a function
of the current `selectedFields`: a selected field is removed, an unselected
one is appended with the key `q` followed by the new length. -/
def handleFieldToggle (selectedFields : List Question) (field : AirtableField) :
    List Question :=
  match selectedFields.find? (fun f => f.airtableFieldId == field.id) with
  | some _ => selectedFields.filter (fun f => f.airtableFieldId != field.id)
  | none =>
    selectedFields ++
      [{ questionKey := "q" ++ Nat.repr (selectedFields.length + 1)
         airtableFieldId := field.id
         label := field.name
         type := field.mappedType
         required := false
         conditionalRules := .null
         options := if (JsVal.json field.options).truthy then field.options else .obj [] }]

/-! ## The submit route -/

/-- The accumulators of the question loop of the submit route: the own
properties of `airtableFields` (their order is immaterial) and `errors`. -/
structure SubmitState where
  airtableFields : List (String × JsVal)
  errors : List String

/-- How the submit route ends, up to the call that creates the record. -/
inductive SubmitOutcome where
  | status400 (errors : List String)
  | createRecord (fields : List (String × JsVal))
  | status500

/-- The assignment `airtableFields[key] = value`.  Assigning to `__proto__`
goes to the inherited setter and creates no own property. -/
def setField (fields : List (String × JsVal)) (key : String) (value : JsVal) :
    List (String × JsVal) :=
  if key == "__proto__" then fields
  else (key, value) :: fields.filter (fun p => p.1 != key)

/-- The optional read `v?.name`. -/
def optionalChain (v : JsVal) (name : String) : JsVal :=
  match readField v name with
  | .ok x => x
  | .error _ => .undefined

/-- The comparison `SameValueZero` used by `Array.prototype.includes`.  Arrays
and objects are compared by identity, and the two sides compared by the submit
route never share one: an answer comes from the request body, a choice from
the Airtable metadata. -/
def sameValueZero : JsVal → JsVal → Bool
  | .undefined, .undefined => true
  | .json .null, .json .null => true
  | .json (.bool x), .json (.bool y) => x == y
  | .json (.num x), .json (.num y) => x == y
  | .json (.str x), .json (.str y) => x == y
  | .builtin x, .builtin y => x == y
  | .objectPrototype, .objectPrototype => true
  | _, _ => false

/-- The callback `c => c.name || c` of `choices.map`. -/
def choiceName (c : Json) : Except JsError JsVal :=
  match readField (.json c) "name" with
  | .error e => .error e
  | .ok n => if n.truthy then .ok n else .ok (.json c)

/-- The call `choices.map(c => c.name || c)` over the elements of an array. -/
def mapChoiceNames : List Json → Except JsError (List JsVal)
  | [] => .ok []
  | c :: rest =>
    match choiceName c with
    | .error e => .error e
    | .ok n =>
      match mapChoiceNames rest with
      | .error e => .error e
      | .ok ns => .ok (n :: ns)

/-- The expression `fieldDef.options.choices.map(c => c.name || c)`, reached
with truthy `choices`; a value without a `map` method makes the call throw. -/
def validChoicesOf (choices : JsVal) : Except JsError (List JsVal) :=
  match choices.asArray with
  | some cs => mapChoiceNames cs
  | none => .error .typeError

/-- The call `parts.join(', ')` on element texts. -/
def joinCommaSpace : List String → String
  | [] => ""
  | [s] => s
  | s :: rest => s ++ ", " ++ joinCommaSpace rest

/-- The statement `airtableFields[key] = value` on the accumulators. -/
def SubmitState.write (st : SubmitState) (key : String) (value : JsVal) : SubmitState :=
  { st with airtableFields := setField st.airtableFields key value }

/-- The statement `errors.push(message)` on the accumulators. -/
def SubmitState.pushError (st : SubmitState) (message : String) : SubmitState :=
  { st with errors := st.errors ++ [message] }

/-- The `switch (question.type)` of the submit route, reached with a present
answer of a visible question. -/
def validateAnswer (fieldMap : List (String × Json)) (question : Question) (answer : JsVal)
    (st : SubmitState) : Except JsError SubmitState :=
  let choices := optionalChain (optionalChain (getProperty fieldMap question.airtableFieldId)
    "options") "choices"
  if question.type == "singleSelect" then
    if choices.truthy then
      match validChoicesOf choices with
      | .error e => .error e
      | .ok validChoices =>
        if !validChoices.any (fun c => sameValueZero c answer) then
          .ok (st.pushError (question.label ++ ": invalid choice"))
        else .ok (st.write question.airtableFieldId answer)
    else .ok (st.write question.airtableFieldId answer)
  else if question.type == "multipleSelects" then
    match answer.asArray with
    | none => .ok (st.pushError (question.label ++ ": must be an array"))
    | some items =>
      if choices.truthy then
        match validChoicesOf choices with
        | .error e => .error e
        | .ok validChoices =>
          let invalid := items.filter
            (fun x => !validChoices.any (fun c => sameValueZero c (.json x)))
          if invalid.length > 0 then
            match Json.joinParts invalid with
            | .error e => .error e
            | .ok parts =>
              .ok (st.pushError
                (question.label ++ ": invalid choices: " ++ joinCommaSpace parts))
          else .ok (st.write question.airtableFieldId answer)
      else .ok (st.write question.airtableFieldId answer)
  else if question.type == "attachments" then
    match answer with
    | .json (.arr items) =>
      .ok (st.write question.airtableFieldId
        (.json (.arr (items.map (fun url => Json.obj [("url", url)])))))
    | .json (.str url) =>
      .ok (st.write question.airtableFieldId (.json (.arr [Json.obj [("url", .str url)]])))
    | _ => .ok (st.pushError (question.label ++ ": must be a URL or array of URLs"))
  else if question.type == "singleLineText" || question.type == "longText" then
    match answer.toStr with
    | .error e => .error e
    | .ok text => .ok (st.write question.airtableFieldId (.json (.str text)))
  else .ok (st.pushError ("Unsupported field type: " ++ question.type))

/-- The test `answer === undefined || answer === null || answer === '' ||
(Array.isArray(answer) && answer.length === 0)` of the required check. -/
def isUnanswered (answer : JsVal) : Bool :=
  isMissing answer ||
    (match answer.asArray with
      | some items => items.length == 0
      | none => false)

/-- The body of `for (const question of form.questions)` in the submit route.
The evaluator it calls is the import from `backend/utils/conditionalLogic.js`,
taken as the parameter `shouldShow`. -/
def submitStep (shouldShow : JsVal → AnswerMap → Except JsError Bool)
    (fieldMap : List (String × Json)) (answers : AnswerMap) (st : SubmitState)
    (question : Question) : Except JsError SubmitState :=
  match shouldShow (.json question.conditionalRules) answers with
  | .error e => .error e
  | .ok visible =>
    if !visible then .ok st
    else
      let answer := getProperty answers question.questionKey
      if question.required && isUnanswered answer then
        .ok (st.pushError (question.label ++ " is required"))
      else if !isMissing answer then validateAnswer fieldMap question answer st
      else .ok st

/-- The question loop of the submit route, from a given state of the
accumulators. -/
def submitLoop (shouldShow : JsVal → AnswerMap → Except JsError Bool)
    (fieldMap : List (String × Json)) (answers : AnswerMap) :
    List Question → SubmitState → Except JsError SubmitState
  | [], st => .ok st
  | question :: rest, st =>
    match submitStep shouldShow fieldMap answers st question with
    | .error e => .error e
    | .ok st2 => submitLoop shouldShow fieldMap answers rest st2

/-- The submit route from the question loop to its response: an exception is
caught and answered with status 500, recorded errors with status 400, and
otherwise the record is created from `airtableFields`. -/
def submitOutcome (shouldShow : JsVal → AnswerMap → Except JsError Bool)
    (fieldMap : List (String × Json)) (answers : AnswerMap) (questions : List Question) :
    SubmitOutcome :=
  match submitLoop shouldShow fieldMap answers questions ⟨[], []⟩ with
  | .error _ => .status500
  | .ok st => if st.errors.length > 0 then .status400 st.errors else .createRecord st.airtableFields

/-! ## The form builder: conditional rules -/

/-- The `updates` objects that `updateField` is called with. -/
inductive FieldUpdates where
  | label (label : String)
  | required (required : Bool)
  | conditionalRules (rules : Json)

/-- The object `{ ...field, ...updates }`. -/
def Question.withUpdates (field : Question) : FieldUpdates → Question
  | .label label => { field with label := label }
  | .required required => { field with required := required }
  | .conditionalRules rules => { field with conditionalRules := rules }

/-- The function `updateField(index, updates)` of `FormBuilder.jsx`, as a
function of the current `selectedFields`.  Every call site passes the index of
an existing field; another index leaves the list as it is. -/
def updateField (selectedFields : List Question) (index : Nat) (updates : FieldUpdates) :
    List Question :=
  match selectedFields, index with
  | [], _ => []
  | field :: rest, 0 => field.withUpdates updates :: rest
  | field :: rest, index + 1 => field :: updateField rest index updates

/-- The own enumerable properties an object spread `{ ...value }` copies. -/
def objectSpread : Json → List (String × Json)
  | .obj props => props
  | .arr items => (List.range items.length).zip items |>.map (fun p => (Nat.repr p.1, p.2))
  | .str text =>
    (List.range text.data.length).zip text.data |>.map
      (fun p => (Nat.repr p.1, Json.str (String.singleton p.2)))
  | _ => []

/-- The object literal `{ ...props, [key]: value }`. -/
def objectWith (props : List (String × Json)) (key : String) (value : Json) :
    List (String × Json) :=
  if props.any (fun p => p.1 == key) then
    props.map (fun p => if p.1 == key then (key, value) else p)
  else props ++ [(key, value)]

/-- The array spread `[...value]`: the elements of an array, the characters of
a string, and a `TypeError` on a value that is not iterable. -/
def arraySpread : JsVal → Except JsError (List Json)
  | .json (.arr items) => .ok items
  | .json (.str text) => .ok (text.data.map (fun c => Json.str (String.singleton c)))
  | _ => .error .typeError

/-- The condition `{ questionKey: otherFields[0]?.questionKey || '', operator:
'equals', value: '' }` that the builder starts a condition with, where
`otherFields` are the fields before `fieldIndex`. -/
def newCondition (selectedFields : List Question) (fieldIndex : Nat) : Json :=
  mkCondition
    (match (selectedFields.take fieldIndex).head? with
      | some other => other.questionKey
      | none => "")
    "equals" (.str "")

/-- The function `addCondition(fieldIndex)` of `FormBuilder.jsx`. -/
def addCondition (selectedFields : List Question) (fieldIndex : Nat) :
    Except JsError (List Question) :=
  match selectedFields[fieldIndex]? with
  | none => .error .typeError
  | some field =>
    if !(JsVal.json field.conditionalRules).truthy then
      .ok (updateField selectedFields fieldIndex
        (.conditionalRules (.obj [("logic", .str "AND"),
          ("conditions", .arr [newCondition selectedFields fieldIndex])])))
    else .ok selectedFields

/-- The three `updates` objects that `updateCondition` is called with. -/
inductive ConditionUpdates where
  | questionKey (value : String)
  | operator (value : String)
  | value (value : String)

/-- The object `{ ...condition, ...updates }`. -/
def conditionWithUpdates (condition : Json) : ConditionUpdates → Json
  | .questionKey v => .obj (objectWith (objectSpread condition) "questionKey" (.str v))
  | .operator v => .obj (objectWith (objectSpread condition) "operator" (.str v))
  | .value v => .obj (objectWith (objectSpread condition) "value" (.str v))

/-- The statement `conditions[conditionIndex] = { ...conditions[conditionIndex],
...updates }`, issued from the controls of an existing condition; another
index leaves the list as it is. -/
def updateConditionAt (conditions : List Json) (conditionIndex : Nat)
    (updates : ConditionUpdates) : List Json :=
  match conditions, conditionIndex with
  | [], _ => []
  | condition :: rest, 0 => conditionWithUpdates condition updates :: rest
  | condition :: rest, index + 1 => condition :: updateConditionAt rest index updates

/-- The function `updateCondition(fieldIndex, conditionIndex, updates)`. -/
def updateCondition (selectedFields : List Question) (fieldIndex conditionIndex : Nat)
    (updates : ConditionUpdates) : Except JsError (List Question) :=
  match selectedFields[fieldIndex]? with
  | none => .error .typeError
  | some field =>
    match readField (.json field.conditionalRules) "conditions" with
    | .error e => .error e
    | .ok stored =>
      match arraySpread stored with
      | .error e => .error e
      | .ok conditions =>
        .ok (updateField selectedFields fieldIndex
          (.conditionalRules (.obj (objectWith (objectSpread field.conditionalRules) "conditions"
            (.arr (updateConditionAt conditions conditionIndex updates))))))

/-- The function `addConditionToField(fieldIndex)`. -/
def addConditionToField (selectedFields : List Question) (fieldIndex : Nat) :
    Except JsError (List Question) :=
  match selectedFields[fieldIndex]? with
  | none => .error .typeError
  | some field =>
    match readField (.json field.conditionalRules) "conditions" with
    | .error e => .error e
    | .ok stored =>
      match arraySpread stored with
      | .error e => .error e
      | .ok conditions =>
        .ok (updateField selectedFields fieldIndex
          (.conditionalRules (.obj (objectWith (objectSpread field.conditionalRules) "conditions"
            (.arr (conditions ++ [newCondition selectedFields fieldIndex]))))))

/-- The function `removeCondition(fieldIndex, conditionIndex)`; the call
`conditions.filter((_, i) => i !== conditionIndex)` needs an array. -/
def removeCondition (selectedFields : List Question) (fieldIndex conditionIndex : Nat) :
    Except JsError (List Question) :=
  match selectedFields[fieldIndex]? with
  | none => .error .typeError
  | some field =>
    match readField (.json field.conditionalRules) "conditions" with
    | .error e => .error e
    | .ok stored =>
      match stored.asArray with
      | none => .error .typeError
      | some all =>
        let conditions := all.eraseIdx conditionIndex
        if conditions.length == 0 then
          .ok (updateField selectedFields fieldIndex (.conditionalRules .null))
        else
          .ok (updateField selectedFields fieldIndex
            (.conditionalRules (.obj (objectWith (objectSpread field.conditionalRules)
              "conditions" (.arr conditions)))))

/-- The two options of the logic select. -/
inductive LogicOption where
  | AND
  | OR

/-- The `value` attribute of an option of the logic select. -/
def LogicOption.value : LogicOption → String
  | .AND => "AND"
  | .OR => "OR"

/-- The `onChange` handler of the logic select, `updateField(index, {
conditionalRules: { ...field.conditionalRules, logic: e.target.value } })`.
The select is rendered inside `field.conditionalRules && (...)`, for the
fields of `selectedFields`; there is none to change otherwise. -/
def selectLogic (selectedFields : List Question) (index : Nat) (option : LogicOption) :
    List Question :=
  match selectedFields[index]? with
  | none => selectedFields
  | some field =>
    if (JsVal.json field.conditionalRules).truthy then
      updateField selectedFields index
        (.conditionalRules (.obj (objectWith (objectSpread field.conditionalRules) "logic"
          (.str option.value))))
    else selectedFields

/-- An event of the form builder. -/
inductive BuilderOp where
  | toggle (field : AirtableField)
  | setLabel (index : Nat) (label : String)
  | setRequired (index : Nat) (required : Bool)
  | selectLogic (index : Nat) (option : LogicOption)
  | addCondition (fieldIndex : Nat)
  | addConditionToField (fieldIndex : Nat)
  | updateCondition (fieldIndex conditionIndex : Nat) (updates : ConditionUpdates)
  | removeCondition (fieldIndex conditionIndex : Nat)

/-- The state `selectedFields` after an event: a handler that throws does not
reach `setSelectedFields`. -/
def applyOp (selectedFields : List Question) : BuilderOp → List Question
  | .toggle field => handleFieldToggle selectedFields field
  | .setLabel index label => updateField selectedFields index (.label label)
  | .setRequired index required => updateField selectedFields index (.required required)
  | .selectLogic index option => selectLogic selectedFields index option
  | .addCondition fieldIndex =>
    match addCondition selectedFields fieldIndex with
    | .ok next => next
    | .error _ => selectedFields
  | .addConditionToField fieldIndex =>
    match addConditionToField selectedFields fieldIndex with
    | .ok next => next
    | .error _ => selectedFields
  | .updateCondition fieldIndex conditionIndex updates =>
    match updateCondition selectedFields fieldIndex conditionIndex updates with
    | .ok next => next
    | .error _ => selectedFields
  | .removeCondition fieldIndex conditionIndex =>
    match removeCondition selectedFields fieldIndex conditionIndex with
    | .ok next => next
    | .error _ => selectedFields

/-- A value of `conditionalRules` that is `null` or a rule set with a
non-empty conditions sequence and logic "AND" or "OR". -/
def RulesOk (rules : Json) : Prop :=
  rules = .null ∨
    ∃ props c cs, rules = .obj props ∧ props.lookup "conditions" = some (.arr (c :: cs)) ∧
      (props.lookup "logic" = some (.str "AND") ∨ props.lookup "logic" = some (.str "OR"))

/-! ## The form viewer: client-side validation -/

/-- The callback of `form.questions.forEach` in `validate` of
`FormViewer.jsx`, acting on the own properties of `newErrors`.  The call
`isFieldVisible(question)` is the render-time `shouldShowQuestion`. -/
def validateQuestion (answers : AnswerMap) (newErrors : List (String × JsVal))
    (question : Question) : Except JsError (List (String × JsVal)) :=
  match shouldShowQuestion (.json question.conditionalRules) answers with
  | .error e => .error e
  | .ok visible =>
    if visible && question.required then
      let answer := getProperty answers question.questionKey
      if isUnanswered answer then
        .ok (setField newErrors question.questionKey (.json (.str "This field is required")))
      else .ok newErrors
    else .ok newErrors

/-- The loop `form.questions.forEach(...)` of `validate`. -/
def validateErrors (answers : AnswerMap) :
    List Question → List (String × JsVal) → Except JsError (List (String × JsVal))
  | [], newErrors => .ok newErrors
  | question :: rest, newErrors =>
    match validateQuestion answers newErrors question with
    | .error e => .error e
    | .ok newErrors2 => validateErrors answers rest newErrors2

/-- The function `validate` of `FormViewer.jsx`: its return value
`Object.keys(newErrors).length === 0`. -/
def validate (questions : List Question) (answers : AnswerMap) : Except JsError Bool :=
  match validateErrors answers questions [] with
  | .error e => .error e
  | .ok newErrors => .ok (newErrors.length == 0)

/-- The condition under which `validate` flags a question with "This field is
required": `isFieldVisible(question) && question.required`, then the test on
the answer. -/
def clientRequiredError (answers : AnswerMap) (question : Question) : Except JsError Bool :=
  match shouldShowQuestion (.json question.conditionalRules) answers with
  | .error e => .error e
  | .ok visible =>
    .ok (visible && question.required && isUnanswered (getProperty answers question.questionKey))

/-- The condition under which the loop body of the submit route records
"<label> is required": the question is shown, then `question.required &&`
the test on the answer. -/
def serverRequiredError (shouldShow : JsVal → AnswerMap → Except JsError Bool)
    (answers : AnswerMap) (question : Question) : Except JsError Bool :=
  match shouldShow (.json question.conditionalRules) answers with
  | .error e => .error e
  | .ok visible =>
    .ok (visible && (question.required && isUnanswered (getProperty answers question.questionKey)))

/-! ## Primitives: basic facts -/

theorem isMissing_eq_false_iff (v : JsVal) : isMissing v = false ↔ Present v := by
  unfold Present
  cases v with
  | undefined => simp [isMissing]
  | json j =>
    cases j with
    | str s =>
      simp [isMissing]
    | _ => simp [isMissing]
  | builtin n => simp [isMissing]
  | objectPrototype => simp [isMissing]

theorem listIncludes_iff (s t : List Char) : listIncludes s t = true ↔ t <:+: s := by
  induction s with
  | nil => simp [listIncludes, List.isPrefixOf_iff_prefix]
  | cons c s ih =>
    simp [listIncludes, List.infix_cons_iff, ih, List.isPrefixOf_iff_prefix]

theorem asArray_eq_some (v : JsVal) (cs : List Json) (h : v.asArray = some cs) :
    v = .json (.arr cs) := by
  cases v with
  | json j =>
    cases j with
    | arr items => simp only [JsVal.asArray, Option.some.injEq] at h; rw [h]
    | _ => cases h
  | _ => cases h

theorem getProperty_toStr_ok (answers : AnswerMap) (key : String)
    (hans : ∀ k v, answers.lookup k = some v → ∃ s, v.toStr = .ok s) :
    ∃ s, (getProperty answers key).toStr = .ok s := by
  unfold getProperty
  cases hl : answers.lookup key with
  | some v => exact hans key v hl
  | none =>
    simp only [objectPrototypeMember]
    split
    · exact ⟨_, rfl⟩
    · split
      · exact ⟨_, rfl⟩
      · split
        · exact ⟨_, rfl⟩
        · exact ⟨_, rfl⟩

/-- The method `includes` decides whether its argument is a substring. -/
theorem includes_iff (s t : String) : includes s t = true ↔ t.data <:+: s.data :=
  listIncludes_iff s.data t.data

/-! ## Combining the individual results -/

theorem mapConditions_nil (a : AnswerMap) : mapConditions a [] = .ok [] := rfl

theorem mapConditions_cons_ok (a : AnswerMap) (c : Json) (cs : List Json) (r : Bool)
    (rs : List Bool) (hc : conditionResult a c = .ok r) (hcs : mapConditions a cs = .ok rs) :
    mapConditions a (c :: cs) = .ok (r :: rs) := by
  simp [mapConditions, hc, hcs]

/-- When `map` returns, it returns one result per condition, in order. -/
theorem mapConditions_ok_iff (a : AnswerMap) (cs : List Json) (rs : List Bool) :
    mapConditions a cs = .ok rs ↔ List.Forall₂ (fun c r => conditionResult a c = .ok r) cs rs := by
  induction cs generalizing rs with
  | nil =>
    cases rs <;> simp [mapConditions]
  | cons c cs ih =>
    unfold mapConditions
    cases hc : conditionResult a c with
    | error e =>
      simp only [reduceCtorEq, false_iff]
      intro h
      cases h with
      | cons h1 _ => rw [hc] at h1; cases h1
    | ok r =>
      cases hcs : mapConditions a cs with
      | error e =>
        simp only [reduceCtorEq, false_iff]
        intro h
        cases h with
        | cons _ h2 => rw [← ih, hcs] at h2; cases h2
      | ok rs0 =>
        simp only [Except.ok.injEq]
        constructor
        · intro h
          subst h
          exact List.Forall₂.cons hc ((ih rs0).mp hcs)
        · intro h
          cases h with
          | cons h1 h2 =>
            rw [hc] at h1
            rw [← ih, hcs] at h2
            cases h1
            cases h2
            rfl

/-- The call to `map` returns as soon as every condition has a result. -/
theorem mapConditions_total (a : AnswerMap) (cs : List Json)
    (h : ∀ c ∈ cs, ∃ b, conditionResult a c = .ok b) : ∃ rs, mapConditions a cs = .ok rs := by
  induction cs with
  | nil => exact ⟨[], rfl⟩
  | cons c cs ih =>
    obtain ⟨r, hr⟩ := h c (List.mem_cons_self _ _)
    obtain ⟨rs, hrs⟩ := ih (fun c' hc' => h c' (List.mem_cons_of_mem _ hc'))
    exact ⟨r :: rs, mapConditions_cons_ok a c cs r rs hr hrs⟩

theorem forall₂_all_iff (a : AnswerMap) (cs : List Json) (rs : List Bool)
    (h : List.Forall₂ (fun c r => conditionResult a c = .ok r) cs rs) :
    rs.all (fun result => result == true) = true ↔ ∀ c ∈ cs, conditionResult a c = .ok true := by
  induction h with
  | nil => simp
  | cons h1 _ ih =>
    rename_i c r cs rs
    simp only [List.all_cons, Bool.and_eq_true, beq_iff_eq, List.mem_cons, forall_eq_or_imp, ih]
    constructor
    · rintro ⟨hr, hall⟩
      exact ⟨by rw [h1, hr], hall⟩
    · rintro ⟨hr, hall⟩
      refine ⟨?_, hall⟩
      rw [h1] at hr
      cases hr
      rfl

theorem forall₂_any_iff (a : AnswerMap) (cs : List Json) (rs : List Bool)
    (h : List.Forall₂ (fun c r => conditionResult a c = .ok r) cs rs) :
    rs.any (fun result => result == true) = true ↔ ∃ c ∈ cs, conditionResult a c = .ok true := by
  induction h with
  | nil => simp
  | cons h1 _ ih =>
    rename_i c r cs rs
    simp only [List.any_cons, Bool.or_eq_true, beq_iff_eq, List.mem_cons, exists_eq_or_imp, ih]
    constructor
    · rintro (hr | hex)
      · exact Or.inl (by rw [h1, hr])
      · exact Or.inr hex
    · rintro (hr | hex)
      · left
        rw [h1] at hr
        cases hr
        rfl
      · exact Or.inr hex

theorem truthy_obj (props : List (String × Json)) : (JsVal.json (.obj props)).truthy = true := rfl

theorem truthy_arr (items : List Json) : (JsVal.json (.arr items)).truthy = true := rfl

/-- A rule set with a non-empty conditions sequence and a truthy logic value
reaches the combination step. -/
theorem shouldShowQuestion_mkRules_cons (l : Json) (hl : (JsVal.json l).truthy = true)
    (c : Json) (cs : List Json) (a : AnswerMap) :
    shouldShowQuestion (mkRules (some l) (.arr (c :: cs))) a =
      match mapConditions a (c :: cs) with
      | .error e => .error e
      | .ok rs =>
        if (JsVal.json l).strictEqStr "OR" then .ok (rs.any (fun result => result == true))
        else .ok (rs.all (fun result => result == true)) := by
  simp [shouldShowQuestion, mkRules, readField, getProperty, List.lookup, truthy_obj,
    truthy_arr, JsVal.asArray, hl]

/-! ## One condition -/

theorem readField_mkCondition_questionKey (key op : String) (v : Json) :
    readField (.json (mkCondition key op v)) "questionKey" = .ok (.json (.str key)) := by
  simp [readField, mkCondition, getProperty, List.lookup]

theorem readField_mkCondition_operator (key op : String) (v : Json) :
    readField (.json (mkCondition key op v)) "operator" = .ok (.json (.str op)) := by
  simp [readField, mkCondition, getProperty, List.lookup]

theorem readField_mkCondition_value (key op : String) (v : Json) :
    readField (.json (mkCondition key op v)) "value" = .ok (.json v) := by
  simp [readField, mkCondition, getProperty, List.lookup]

/-- The individual result of the condition `{ questionKey, operator, value }`:
the missing-answer test on `answersSoFar[questionKey]`, then the operator. -/
theorem conditionResult_mkCondition (a : AnswerMap) (key op : String) (v : Json) :
    conditionResult a (mkCondition key op v) =
      if isMissing (getProperty a key) then .ok false
      else applyOperator (.json (.str op)) (.json v) (getProperty a key) := by
  unfold conditionResult
  rw [readField_mkCondition_questionKey, readField_mkCondition_operator,
    readField_mkCondition_value]
  rfl

/-- A condition whose answer lookup yields `undefined`, `null` or the empty
string has the individual result false, whatever its operator and value. -/
theorem conditionResult_of_isMissing (a : AnswerMap) (key op : String) (v : Json)
    (h : isMissing (getProperty a key) = true) :
    conditionResult a (mkCondition key op v) = .ok false := by
  rw [conditionResult_mkCondition, if_pos h]

/-- Off the keys that `Object.prototype` defines, a key without an own entry,
or with the entry `null` or the empty string, gives the result false. -/
theorem conditionResult_of_no_entry (a : AnswerMap) (key op : String) (v : Json)
    (hinh : objectPrototypeMember key = .undefined)
    (hmiss : a.lookup key = none ∨ a.lookup key = some .null ∨ a.lookup key = some (.str "")) :
    conditionResult a (mkCondition key op v) = .ok false := by
  apply conditionResult_of_isMissing
  unfold getProperty
  rcases hmiss with h | h | h
  · rw [h]
    simp only [hinh]
    rfl
  · rw [h]
    rfl
  · rw [h]
    rfl

theorem conditionResult_of_present (a : AnswerMap) (key op : String) (v : Json)
    (h : Present (getProperty a key)) :
    conditionResult a (mkCondition key op v) =
      applyOperator (.json (.str op)) (.json v) (getProperty a key) := by
  rw [conditionResult_mkCondition, (isMissing_eq_false_iff _).mpr h]
  rfl

/-- A rule set made of one condition evaluates to that condition's result,
under AND as under OR. -/
theorem shouldShowQuestion_single (l : Json) (hl : (JsVal.json l).truthy = true) (c : Json)
    (a : AnswerMap) :
    shouldShowQuestion (mkRules (some l) (.arr [c])) a = conditionResult a c := by
  rw [shouldShowQuestion_mkRules_cons l hl]
  unfold mapConditions
  cases conditionResult a c with
  | error e => rfl
  | ok r =>
    simp only [mapConditions]
    cases r <;> cases (JsVal.json l).strictEqStr "OR" <;> rfl

/-! ## AND and OR -/

/-- C1 (AND semantics): for a rule set with logic "AND" and a non-empty
conditions sequence, and every answers map, the evaluator returns true exactly
when the individual result of every condition is true; and it does return a
boolean whenever every condition has an individual result. -/
theorem shouldShowQuestion_and_iff (cs : List Json) (a : AnswerMap) (hne : cs ≠ []) :
    (shouldShowQuestion (mkRules (some (.str "AND")) (.arr cs)) a = .ok true ↔
        ∀ c ∈ cs, conditionResult a c = .ok true) ∧
      ((∀ c ∈ cs, ∃ b, conditionResult a c = .ok b) →
        ∃ b, shouldShowQuestion (mkRules (some (.str "AND")) (.arr cs)) a = .ok b) := by
  obtain ⟨c, cs', rfl⟩ := List.exists_cons_of_ne_nil hne
  rw [shouldShowQuestion_mkRules_cons (.str "AND") (by decide)]
  have hOR : (JsVal.json (.str "AND")).strictEqStr "OR" = false := by decide
  simp only [hOR, Bool.false_eq_true, if_false]
  constructor
  · cases hm : mapConditions a (c :: cs') with
    | error e =>
      simp only [reduceCtorEq, false_iff]
      intro hall
      obtain ⟨rs, hrs⟩ := mapConditions_total a (c :: cs') (fun x hx => ⟨true, hall x hx⟩)
      rw [hm] at hrs
      cases hrs
    | ok rs =>
      simp only [Except.ok.injEq]
      exact forall₂_all_iff a _ rs ((mapConditions_ok_iff a _ rs).mp hm)
  · intro hres
    obtain ⟨rs, hrs⟩ := mapConditions_total a (c :: cs') hres
    rw [hrs]
    exact ⟨_, rfl⟩

/-- The test "AND logic: all conditions must be true", obtained from C1. -/
theorem shouldShowQuestion_and_iff_witness :
    shouldShowQuestion
        (mkRules (some (.str "AND"))
          (.arr [mkCondition "q1" "equals" (.str "yes"), mkCondition "q2" "equals" (.str "no")]))
        [("q1", .str "yes"), ("q2", .str "no")] = .ok true ∧
      shouldShowQuestion
        (mkRules (some (.str "AND"))
          (.arr [mkCondition "q1" "equals" (.str "yes"), mkCondition "q2" "equals" (.str "no")]))
        [("q1", .str "yes"), ("q2", .str "yes")] ≠ .ok true :=
  ⟨(shouldShowQuestion_and_iff _ _ (List.cons_ne_nil _ _)).1.mpr (by decide),
   fun h => absurd ((shouldShowQuestion_and_iff _ _ (List.cons_ne_nil _ _)).1.mp h) (by decide)⟩

/-- OR semantics where no condition throws: for a rule set with logic "OR" and
a non-empty conditions sequence each of whose conditions has an individual
result, and every answers map, the evaluator returns a boolean, and it returns
true exactly when the individual result of at least one condition is true. -/
theorem shouldShowQuestion_or_iff (cs : List Json) (a : AnswerMap) (hne : cs ≠ [])
    (hres : ∀ c ∈ cs, ∃ b, conditionResult a c = .ok b) :
    (∃ b, shouldShowQuestion (mkRules (some (.str "OR")) (.arr cs)) a = .ok b) ∧
      (shouldShowQuestion (mkRules (some (.str "OR")) (.arr cs)) a = .ok true ↔
        ∃ c ∈ cs, conditionResult a c = .ok true) := by
  obtain ⟨c, cs', rfl⟩ := List.exists_cons_of_ne_nil hne
  rw [shouldShowQuestion_mkRules_cons (.str "OR") (by decide)]
  have hOR : (JsVal.json (.str "OR")).strictEqStr "OR" = true := by decide
  obtain ⟨rs, hrs⟩ := mapConditions_total a (c :: cs') hres
  simp only [hOR, if_true, hrs, Except.ok.injEq]
  exact ⟨⟨_, rfl⟩, forall₂_any_iff a _ rs ((mapConditions_ok_iff a _ rs).mp hrs)⟩

/-- The test "OR logic: at least one condition must be true", obtained from
the OR semantics of rule sets whose conditions all have a result. -/
theorem shouldShowQuestion_or_iff_witness :
    shouldShowQuestion
        (mkRules (some (.str "OR"))
          (.arr [mkCondition "q1" "equals" (.str "yes"), mkCondition "q2" "equals" (.str "no")]))
        [("q1", .str "yes"), ("q2", .str "maybe")] = .ok true ∧
      shouldShowQuestion
        (mkRules (some (.str "OR"))
          (.arr [mkCondition "q1" "equals" (.str "yes"), mkCondition "q2" "equals" (.str "no")]))
        [("q1", .str "no"), ("q2", .str "maybe")] ≠ .ok true :=
  ⟨(shouldShowQuestion_or_iff _ _ (List.cons_ne_nil _ _) (by decide)).2.mpr (by decide),
   fun h => absurd
     ((shouldShowQuestion_or_iff _ _ (List.cons_ne_nil _ _) (by decide)).2.mp h) (by decide)⟩

/-- C2 (OR semantics, failing input): under logic "OR" and the answers
`{q1: "yes"}`, the condition `q1 equals "yes"` has the individual result true,
yet the rule set made of it and of `q1 equals {toString: "x"}` does not
evaluate to true: `map` runs the second condition before `some` combines the
results, `String(value)` finds no usable `toString` there, and the call
throws a `TypeError`. -/
theorem shouldShowQuestion_or_true_condition_throws :
    conditionResult [("q1", .str "yes")] (mkCondition "q1" "equals" (.str "yes")) = .ok true ∧
      conditionResult [("q1", .str "yes")]
        (mkCondition "q1" "equals" (.obj [("toString", .str "x")])) = .error .typeError ∧
      shouldShowQuestion
        (mkRules (some (.str "OR"))
          (.arr [mkCondition "q1" "equals" (.str "yes"),
            mkCondition "q1" "equals" (.obj [("toString", .str "x")])]))
        [("q1", .str "yes")] = .error .typeError :=
  ⟨by decide, by decide, by decide⟩

/-! ## The missing-answer rule -/

/-- C3 (missing answer, at an inherited key): on the empty answers map the
condition with questionKey "constructor", operator notEquals and value "test"
has no entry to look up, yet the lookup yields the inherited
`Object.prototype.constructor`, the condition's result is true, and the rule
set made of that condition evaluates to true under AND and under OR. -/
theorem conditionResult_missing_inherited_key :
    List.lookup "constructor" ([] : AnswerMap) = none ∧
      conditionResult [] (mkCondition "constructor" "notEquals" (.str "test")) = .ok true ∧
      shouldShowQuestion
        (mkRules (some (.str "AND")) (.arr [mkCondition "constructor" "notEquals" (.str "test")]))
        [] = .ok true ∧
      shouldShowQuestion
        (mkRules (some (.str "OR")) (.arr [mkCondition "constructor" "notEquals" (.str "test")]))
        [] = .ok true :=
  ⟨rfl, by decide, by decide, by decide⟩

/-! ## The operators -/

theorem strictEqStr_str (s lit : String) : (JsVal.json (.str s)).strictEqStr lit = (s == lit) := rfl

/-- C4 (equals): for a present answer and any condition value, the equals
condition is true exactly when the string form of the answer is identical to
the string form of the value; and when both have a string form the condition
has a result, the outcome of that comparison. -/
theorem conditionResult_equals_iff (a : AnswerMap) (key : String) (v : Json) (av : JsVal)
    (hav : getProperty a key = av) (hp : Present av) :
    (conditionResult a (mkCondition key "equals" v) = .ok true ↔
        ∃ s, av.toStr = .ok s ∧ v.toStr = .ok s) ∧
      (∀ s t, av.toStr = .ok s → v.toStr = .ok t →
        conditionResult a (mkCondition key "equals" v) = .ok (decide (s = t))) := by
  subst hav
  rw [conditionResult_of_present a key "equals" v hp]
  have h1 : (JsVal.json (.str "equals")).strictEqStr "equals" = true := by decide
  simp only [applyOperator, h1, if_true]
  have hv : (JsVal.json v).toStr = v.toStr := rfl
  rw [hv]
  cases (getProperty a key).toStr with
  | error e => simp
  | ok s =>
    cases v.toStr with
    | error e => simp
    | ok t =>
      simp only [Except.ok.injEq, beq_iff_eq]
      refine ⟨⟨fun h => ⟨s, rfl, h.symm⟩, fun ⟨u, hsu, htu⟩ => hsu.trans htu.symm⟩, ?_⟩
      intro s1 t1 hs ht
      subst hs ht
      by_cases h : s = t <;> simp [h]

/-- The test "handles numeric values correctly", obtained from C4: the number
123 and the string "123" both satisfy equals "123". -/
theorem conditionResult_equals_iff_witness :
    conditionResult [("q1", .num 123)] (mkCondition "q1" "equals" (.str "123")) = .ok true ∧
      conditionResult [("q1", .str "123")] (mkCondition "q1" "equals" (.str "123")) = .ok true :=
  ⟨(conditionResult_equals_iff [("q1", .num 123)] "q1" (.str "123") (.json (.num 123)) rfl
      ⟨by simp, by simp, by simp⟩).1.mpr ⟨"123", by decide, by decide⟩,
   (conditionResult_equals_iff [("q1", .str "123")] "q1" (.str "123") (.json (.str "123")) rfl
      ⟨by simp, by simp, by simp⟩).1.mpr ⟨"123", by decide, by decide⟩⟩

/-- C5 (complement): when the answer under the condition's key is present,
the result of `{key, notEquals, v}` is the negation of the result of
`{key, equals, v}`. -/
theorem conditionResult_notEquals_eq_not_equals (a : AnswerMap) (key : String) (v : Json)
    (hp : Present (getProperty a key)) :
    conditionResult a (mkCondition key "notEquals" v) =
      (conditionResult a (mkCondition key "equals" v)).map (fun b => !b) := by
  rw [conditionResult_of_present a key "equals" v hp,
    conditionResult_of_present a key "notEquals" v hp]
  have h1 : (JsVal.json (.str "equals")).strictEqStr "equals" = true := by decide
  have h2 : (JsVal.json (.str "notEquals")).strictEqStr "equals" = false := by decide
  have h3 : (JsVal.json (.str "notEquals")).strictEqStr "notEquals" = true := by decide
  simp only [applyOperator, h1, h2, h3, if_true, Bool.false_eq_true, if_false]
  cases (getProperty a key).toStr with
  | error e => rfl
  | ok s =>
    cases (JsVal.json v).toStr with
    | error e => rfl
    | ok t => rfl

/-- The test "notEquals operator works correctly", read through C5. -/
theorem conditionResult_notEquals_eq_not_equals_witness :
    Present (getProperty [("q1", .str "other")] "q1") ∧
      conditionResult [("q1", .str "other")] (mkCondition "q1" "notEquals" (.str "test")) =
        (conditionResult [("q1", .str "other")] (mkCondition "q1" "equals" (.str "test"))).map
          (fun b => !b) ∧
      conditionResult [("q1", .str "other")] (mkCondition "q1" "equals" (.str "test")) =
        .ok false :=
  have hp : Present (getProperty [("q1", .str "other")] "q1") := by
    refine ⟨?_, ?_, ?_⟩ <;> simp [getProperty, List.lookup]
  ⟨hp, conditionResult_notEquals_eq_not_equals _ "q1" (.str "test") hp, by decide⟩

/-- The loop of `some` over elements that all have a string form: it returns,
and returns true exactly when some element's string form includes the value's. -/
theorem someIncludes_iff (value : JsVal) (sv : String) (hv : value.toStr = .ok sv)
    (items : List Json) (hitems : ∀ item ∈ items, ∃ s, item.toStr = .ok s) :
    (∃ b, someIncludes value items = .ok b) ∧
      (someIncludes value items = .ok true ↔
        ∃ item ∈ items, ∃ s, item.toStr = .ok s ∧ sv.data <:+: s.data) := by
  induction items with
  | nil => simp [someIncludes]
  | cons item rest ih =>
    obtain ⟨s, hs⟩ := hitems item (List.mem_cons_self _ _)
    obtain ⟨hex, hiff⟩ := ih (fun x hx => hitems x (List.mem_cons_of_mem _ hx))
    simp only [someIncludes, hs, hv]
    by_cases hinc : includes s sv = true
    · simp only [hinc, if_true]
      exact ⟨⟨true, rfl⟩, ⟨fun _ => ⟨item, List.mem_cons_self _ _, s, hs,
        (includes_iff s sv).mp hinc⟩, fun _ => by first | rfl | trivial⟩⟩
    · simp only [hinc, Bool.false_eq_true, if_false]
      refine ⟨hex, ?_⟩
      rw [hiff]
      constructor
      · rintro ⟨x, hx, t, ht, hsub⟩
        exact ⟨x, List.mem_cons_of_mem _ hx, t, ht, hsub⟩
      · rintro ⟨x, hx, t, ht, hsub⟩
        rcases List.mem_cons.mp hx with rfl | hx
        · rw [hs] at ht
          cases ht
          exact absurd ((includes_iff s sv).mpr hsub) hinc
        · exact ⟨x, hx, t, ht, hsub⟩

/-- Contains over a sequence of printable elements: when the answer is a
sequence whose elements have string forms and the condition value has the
string form `sv`, the contains condition has a result, and it is true exactly
when at least one element's string form has `sv` as a substring. -/
theorem conditionResult_contains_array_iff (a : AnswerMap) (key : String) (v : Json)
    (items : List Json) (sv : String) (hav : getProperty a key = .json (.arr items))
    (hitems : ∀ item ∈ items, ∃ s, item.toStr = .ok s) (hv : v.toStr = .ok sv) :
    (∃ b, conditionResult a (mkCondition key "contains" v) = .ok b) ∧
      (conditionResult a (mkCondition key "contains" v) = .ok true ↔
        ∃ item ∈ items, ∃ s, item.toStr = .ok s ∧ sv.data <:+: s.data) := by
  have hp : Present (getProperty a key) := by
    rw [hav]
    refine ⟨?_, ?_, ?_⟩ <;> simp
  rw [conditionResult_of_present a key "contains" v hp, hav]
  have h1 : (JsVal.json (.str "contains")).strictEqStr "equals" = false := by decide
  have h2 : (JsVal.json (.str "contains")).strictEqStr "notEquals" = false := by decide
  have h3 : (JsVal.json (.str "contains")).strictEqStr "contains" = true := by decide
  simp only [applyOperator, h1, h2, h3, if_true, Bool.false_eq_true, if_false, JsVal.asArray]
  exact someIncludes_iff (.json v) sv hv items hitems

/-- The test "contains operator works with arrays", obtained from the lemma on
sequences of printable elements. -/
theorem conditionResult_contains_array_iff_witness :
    conditionResult [("q1", .arr [.str "option1", .str "option2"])]
        (mkCondition "q1" "contains" (.str "option1")) = .ok true ∧
      conditionResult [("q1", .arr [.str "option2", .str "option3"])]
        (mkCondition "q1" "contains" (.str "option1")) ≠ .ok true :=
  ⟨(conditionResult_contains_array_iff [("q1", .arr [.str "option1", .str "option2"])] "q1"
      (.str "option1") [.str "option1", .str "option2"] "option1" rfl
      (fun item hitem => by
        rcases List.mem_cons.mp hitem with rfl | hitem
        · exact ⟨_, rfl⟩
        · rcases List.mem_cons.mp hitem with rfl | hitem
          · exact ⟨_, rfl⟩
          · cases hitem) rfl).2.mpr
      ⟨.str "option1", List.mem_cons_self _ _, "option1", rfl, List.infix_refl _⟩,
   fun h => absurd h (by decide)⟩

/-- C6 (contains over a sequence, failing input): the answer
`[{toString: 1}, "option1"]` is a sequence one of whose elements, "option1",
has a string form that contains the string form of the condition value
"option1"; yet the contains condition is not true on it: `some` visits the
first element first, `String(item)` finds no usable `toString` on it, and the
condition, like the rule set made of it, throws a `TypeError`. -/
theorem conditionResult_contains_array_throws :
    (∃ item ∈ [Json.obj [("toString", .num 1)], Json.str "option1"],
        ∃ s sv, item.toStr = .ok s ∧ (Json.str "option1").toStr = .ok sv ∧ sv.data <:+: s.data) ∧
      conditionResult [("q1", .arr [.obj [("toString", .num 1)], .str "option1"])]
        (mkCondition "q1" "contains" (.str "option1")) = .error .typeError ∧
      shouldShowQuestion (mkRules none (.arr [mkCondition "q1" "contains" (.str "option1")]))
        [("q1", .arr [.obj [("toString", .num 1)], .str "option1"])] = .error .typeError :=
  ⟨⟨.str "option1", List.mem_cons_of_mem _ (List.mem_cons_self _ _), "option1", "option1", rfl,
      rfl, List.infix_refl _⟩, by decide, by decide⟩

/-- C7 (contains over a scalar): when the answer is present and is not a
sequence, the contains condition is true exactly when the string form of the
answer has the string form of the condition value as a substring; and when
both have a string form the condition has a result. -/
theorem conditionResult_contains_scalar_iff (a : AnswerMap) (key : String) (v : Json)
    (av : JsVal) (hav : getProperty a key = av) (hp : Present av)
    (hna : ∀ items, av ≠ .json (.arr items)) :
    (conditionResult a (mkCondition key "contains" v) = .ok true ↔
        ∃ s sv, av.toStr = .ok s ∧ v.toStr = .ok sv ∧ sv.data <:+: s.data) ∧
      (∀ s sv, av.toStr = .ok s → v.toStr = .ok sv →
        conditionResult a (mkCondition key "contains" v) = .ok (includes s sv)) := by
  subst hav
  rw [conditionResult_of_present a key "contains" v hp]
  have h1 : (JsVal.json (.str "contains")).strictEqStr "equals" = false := by decide
  have h2 : (JsVal.json (.str "contains")).strictEqStr "notEquals" = false := by decide
  have h3 : (JsVal.json (.str "contains")).strictEqStr "contains" = true := by decide
  have harr : (getProperty a key).asArray = none := by
    cases hg : getProperty a key with
    | json j =>
      cases j with
      | arr items => exact absurd hg (hna items)
      | _ => rfl
    | _ => rfl
  have hv : (JsVal.json v).toStr = v.toStr := rfl
  simp only [applyOperator, h1, h2, h3, if_true, Bool.false_eq_true, if_false, harr, hv]
  cases (getProperty a key).toStr with
  | error e => simp
  | ok s =>
    cases v.toStr with
    | error e => simp
    | ok t =>
      simp only [Except.ok.injEq]
      refine ⟨⟨fun h => ⟨s, t, rfl, rfl, (includes_iff s t).mp h⟩, ?_⟩, ?_⟩
      · rintro ⟨s1, t1, hs, ht, hsub⟩
        subst hs ht
        exact (includes_iff _ _).mpr hsub
      · intro s1 t1 hs ht
        subst hs ht
        rfl

/-- The test "contains operator works with strings", obtained from C7. -/
theorem conditionResult_contains_scalar_iff_witness :
    conditionResult [("q1", .str "this is a test")] (mkCondition "q1" "contains" (.str "test")) =
        .ok true ∧
      conditionResult [("q1", .str "no match")] (mkCondition "q1" "contains" (.str "test")) =
        .ok false :=
  ⟨(conditionResult_contains_scalar_iff [("q1", .str "this is a test")] "q1" (.str "test")
      (.json (.str "this is a test")) rfl ⟨by simp, by simp, by simp⟩ (by simp)).1.mpr
      ⟨"this is a test", "test", rfl, rfl, (includes_iff _ _).mp (by decide)⟩,
   (conditionResult_contains_scalar_iff [("q1", .str "no match")] "q1" (.str "test")
      (.json (.str "no match")) rfl ⟨by simp, by simp, by simp⟩ (by simp)).2
      "no match" "test" rfl rfl⟩

/-! ## Rule sets without conditions -/

/-- C8 (no rule set): for every answers map the evaluator returns true on
`null` and on `undefined`. -/
theorem shouldShowQuestion_no_rules (a : AnswerMap) :
    shouldShowQuestion (.json .null) a = .ok true ∧ shouldShowQuestion .undefined a = .ok true :=
  ⟨rfl, rfl⟩

/-- C9 (zero conditions): for every answers map and every logic value, present
or absent, the rule set with the empty conditions sequence evaluates to true,
which is what the evaluator returns without a rule set. -/
theorem shouldShowQuestion_empty_conditions (logic : Option Json) (a : AnswerMap) :
    shouldShowQuestion (mkRules logic (.arr [])) a = .ok true ∧
      shouldShowQuestion (mkRules logic (.arr [])) a = shouldShowQuestion (.json .null) a := by
  have h : shouldShowQuestion (mkRules logic (.arr [])) a = .ok true := by
    cases logic with
    | none =>
      simp [shouldShowQuestion, mkRules, readField, getProperty, List.lookup, truthy_obj,
        truthy_arr, JsVal.asArray]
    | some l =>
      simp [shouldShowQuestion, mkRules, readField, getProperty, List.lookup, truthy_obj,
        truthy_arr, JsVal.asArray]
  exact ⟨h, h.trans rfl⟩

theorem asArray_eq_none (v : JsVal) (h : ∀ cs, v ≠ .json (.arr cs)) : v.asArray = none := by
  cases v with
  | json j =>
    cases j with
    | arr items => exact absurd rfl (h items)
    | _ => rfl
  | _ => rfl

/-- C10 (conditions missing or not a sequence): for every rules value whose
`conditions` field can be read (so the rules are neither `undefined` nor
`null`) and is not a sequence, be it missing, a string, a number or an object,
and for every logic value and every answers map, the evaluator returns true. -/
theorem shouldShowQuestion_conditions_not_array (rules conditions : JsVal) (a : AnswerMap)
    (hc : readField rules "conditions" = .ok conditions)
    (hns : ∀ cs, conditions ≠ .json (.arr cs)) :
    shouldShowQuestion rules a = .ok true := by
  unfold shouldShowQuestion
  by_cases ht : rules.truthy = true
  · simp only [ht, Bool.not_true, Bool.false_eq_true, if_false, hc]
    by_cases hct : conditions.truthy = true
    · simp only [hct, Bool.not_true, Bool.false_eq_true, if_false,
        asArray_eq_none conditions hns]
    · simp [hct]
  · simp [ht]

/-- Instances of C10: conditions missing, a string, a number and an object,
under logic "OR". -/
theorem shouldShowQuestion_conditions_not_array_witness :
    shouldShowQuestion (.json (.obj [("logic", .str "OR")])) [("q1", .str "yes")] = .ok true ∧
      shouldShowQuestion (mkRules (some (.str "OR")) (.str "q1")) [("q1", .str "yes")] =
        .ok true ∧
      shouldShowQuestion (mkRules (some (.str "OR")) (.num 7)) [("q1", .str "yes")] = .ok true ∧
      shouldShowQuestion (mkRules (some (.str "OR")) (.obj [("0", mkCondition "q1" "equals" (.str "no"))]))
        [("q1", .str "yes")] = .ok true :=
  ⟨shouldShowQuestion_conditions_not_array _ .undefined _ rfl (by simp),
   shouldShowQuestion_conditions_not_array _ (.json (.str "q1")) _ rfl (by simp),
   shouldShowQuestion_conditions_not_array _ (.json (.num 7)) _ rfl (by simp),
   shouldShowQuestion_conditions_not_array _
     (.json (.obj [("0", mkCondition "q1" "equals" (.str "no"))])) _ rfl (by simp)⟩

/-! ## The logic field -/

theorem strictEqStr_eq_false_iff (v : JsVal) (lit : String) :
    v.strictEqStr lit = false ↔ v ≠ .json (.str lit) := by
  cases v with
  | json j =>
    cases j with
    | str s => simp [JsVal.strictEqStr]
    | _ => simp [JsVal.strictEqStr]
  | _ => simp [JsVal.strictEqStr]

theorem strictEqStr_OR_of_not_truthy (l : Json) (h : (JsVal.json l).truthy = false) :
    (JsVal.json l).strictEqStr "OR" = false := by
  cases l with
  | str s =>
    have hs : s = "" := by simpa [JsVal.truthy] using h
    subst hs
    decide
  | _ => rfl

/-- What a rule set `{ logic, conditions }` with a conditions array evaluates
to, whatever its logic value: true without conditions, else the mapped
results combined by `some` under "OR" and by `every` otherwise. -/
theorem shouldShowQuestion_mkRules (logic : Option Json) (cs : List Json) (a : AnswerMap) :
    shouldShowQuestion (mkRules logic (.arr cs)) a =
      if cs.length == 0 then .ok true
      else
        match mapConditions a cs with
        | .error e => .error e
        | .ok rs =>
          if logicIsOr logic then .ok (rs.any (fun result => result == true))
          else .ok (rs.all (fun result => result == true)) := by
  cases logic with
  | none =>
    have hund : objectPrototypeMember "logic" = .undefined := rfl
    simp [shouldShowQuestion, mkRules, readField, getProperty, List.lookup, truthy_obj,
      truthy_arr, JsVal.asArray, logicIsOr, hund, JsVal.truthy, JsVal.strictEqStr]
  | some l =>
    by_cases hl : (JsVal.json l).truthy = true
    · simp [shouldShowQuestion, mkRules, readField, getProperty, List.lookup, truthy_obj,
        truthy_arr, JsVal.asArray, logicIsOr, hl]
    · have hl2 : (JsVal.json l).truthy = false := by simpa using hl
      have hor := strictEqStr_OR_of_not_truthy l hl2
      have hand : (JsVal.json (.str "AND")).strictEqStr "OR" = false := by decide
      simp [shouldShowQuestion, mkRules, readField, getProperty, List.lookup, truthy_obj,
        truthy_arr, JsVal.asArray, logicIsOr, hl2, hor, hand]

/-- C11 (default logic): for every conditions value and every answers map, the
rule set that omits `logic` evaluates to the same result as the rule set with
the same conditions and logic "AND". -/
theorem shouldShowQuestion_default_logic (conditions : Json) (a : AnswerMap) :
    shouldShowQuestion (mkRules none conditions) a =
      shouldShowQuestion (mkRules (some (.str "AND")) conditions) a := by
  cases conditions with
  | arr cs =>
    rw [shouldShowQuestion_mkRules, shouldShowQuestion_mkRules]
    have h1 : logicIsOr none = false := rfl
    have h2 : logicIsOr (some (.str "AND")) = false := by decide
    rw [h1, h2]
  | null => rfl
  | bool b => cases b <;> rfl
  | num n =>
    simp [shouldShowQuestion, mkRules, readField, getProperty, List.lookup, truthy_obj,
      JsVal.asArray]
  | str s =>
    simp [shouldShowQuestion, mkRules, readField, getProperty, List.lookup, truthy_obj,
      JsVal.asArray]
  | obj props =>
    simp [shouldShowQuestion, mkRules, readField, getProperty, List.lookup, truthy_obj,
      JsVal.asArray]

/-! ## Unrecognized operators and malformed entries -/

/-- Unrecognized operator on a readable condition: a condition entry that is
not `null`, whose questionKey has a string form and whose operator, possibly
absent, is none of "equals", "notEquals" and "contains" has the result false
on every answers map, whether the referenced answer is present or not. -/
theorem conditionResult_unrecognized_operator (a : AnswerMap) (c : Json) (qk op : JsVal)
    (key : String) (hq : readField (.json c) "questionKey" = .ok qk) (hk : qk.toStr = .ok key)
    (ho : readField (.json c) "operator" = .ok op) (h1 : op ≠ .json (.str "equals"))
    (h2 : op ≠ .json (.str "notEquals")) (h3 : op ≠ .json (.str "contains")) :
    conditionResult a c = .ok false := by
  have hv : ∃ value, readField (.json c) "value" = .ok value := by
    cases c with
    | null => cases hq
    | obj props => exact ⟨_, rfl⟩
    | _ => exact ⟨_, rfl⟩
  obtain ⟨value, hv⟩ := hv
  unfold conditionResult
  simp only [hq, ho, hv, hk]
  by_cases hm : isMissing (getProperty a key) = true
  · simp only [hm, if_true]
  · simp only [hm, Bool.false_eq_true, if_false, applyOperator,
      (strictEqStr_eq_false_iff op "equals").mpr h1,
      (strictEqStr_eq_false_iff op "notEquals").mpr h2,
      (strictEqStr_eq_false_iff op "contains").mpr h3]

/-- Instances of the lemma above: a condition without operator and one with the
operator "startsWith", on a present answer that the value would match. -/
theorem conditionResult_unrecognized_operator_witness :
    conditionResult [("q1", .str "yes")]
        (.obj [("questionKey", .str "q1"), ("value", .str "yes")]) = .ok false ∧
      conditionResult [("q1", .str "yes")] (mkCondition "q1" "startsWith" (.str "yes")) =
        .ok false :=
  ⟨conditionResult_unrecognized_operator _ _ (.json (.str "q1")) .undefined "q1" rfl rfl rfl
      (by simp) (by simp) (by simp),
   conditionResult_unrecognized_operator _ _ (.json (.str "q1")) (.json (.str "startsWith"))
      "q1" rfl rfl rfl (by simp) (by simp) (by simp)⟩

/-- C12 (unrecognized operator, failing input): the condition
`{questionKey: {toString: "x"}, operator: "startsWith", value: "yes"}` has an
operator that is none of "equals", "notEquals" and "contains", yet its result
is not false: the answer lookup converts the key before the switch is
reached, the conversion finds no usable `toString`, and the condition, like
the rule set made of it, throws a `TypeError`. -/
theorem conditionResult_unrecognized_operator_throws :
    readField
        (.json (.obj [("questionKey", .obj [("toString", .str "x")]),
          ("operator", .str "startsWith"), ("value", .str "yes")])) "operator" =
        .ok (.json (.str "startsWith")) ∧
      conditionResult [("q1", .str "yes")]
        (.obj [("questionKey", .obj [("toString", .str "x")]), ("operator", .str "startsWith"),
          ("value", .str "yes")]) = .error .typeError ∧
      shouldShowQuestion
        (mkRules (some (.str "AND"))
          (.arr [.obj [("questionKey", .obj [("toString", .str "x")]),
            ("operator", .str "startsWith"), ("value", .str "yes")]]))
        [("q1", .str "yes")] = .error .typeError :=
  ⟨rfl, by decide, by decide⟩

/-- C13 (failure modes): the evaluator throws a `TypeError` on a rule set whose
conditions sequence holds a `null` entry, and on a rule set whose single
condition compares a present answer with a value that has no string form. -/
theorem shouldShowQuestion_throws :
    shouldShowQuestion (mkRules (some (.str "AND")) (.arr [.null])) [] = .error .typeError ∧
      shouldShowQuestion
        (mkRules (some (.str "AND"))
          (.arr [mkCondition "q1" "equals" (.obj [("toString", .str "x")])]))
        [("q1", .str "yes")] = .error .typeError :=
  ⟨by decide, by decide⟩

/-! ## Well-formed rule sets are evaluated without failure -/

theorem joinParts_mem_toStr (items : List Json) (ps : List String)
    (h : Json.joinParts items = .ok ps) : ∀ item ∈ items, ∃ s, item.toStr = .ok s := by
  induction items generalizing ps with
  | nil => intro item hitem; cases hitem
  | cons x rest ih =>
    have hboth : (∃ s, x.toStr = .ok s) ∧ ∃ ps1, Json.joinParts rest = .ok ps1 := by
      cases x with
      | null =>
        refine ⟨⟨_, rfl⟩, ?_⟩
        simp only [Json.joinParts] at h
        cases hr : Json.joinParts rest with
        | ok ps1 => exact ⟨ps1, rfl⟩
        | error e => rw [hr] at h; cases h
      | bool b =>
        simp only [Json.joinParts] at h
        cases hx : (Json.bool b).toStr with
        | error e => rw [hx] at h; cases h
        | ok t =>
          rw [hx] at h
          cases hr : Json.joinParts rest with
          | ok ps1 => exact ⟨⟨t, rfl⟩, ps1, rfl⟩
          | error e => rw [hr] at h; cases h
      | num n =>
        simp only [Json.joinParts] at h
        cases hx : (Json.num n).toStr with
        | error e => rw [hx] at h; cases h
        | ok t =>
          rw [hx] at h
          cases hr : Json.joinParts rest with
          | ok ps1 => exact ⟨⟨t, rfl⟩, ps1, rfl⟩
          | error e => rw [hr] at h; cases h
      | str t0 =>
        simp only [Json.joinParts] at h
        cases hx : (Json.str t0).toStr with
        | error e => rw [hx] at h; cases h
        | ok t =>
          rw [hx] at h
          cases hr : Json.joinParts rest with
          | ok ps1 => exact ⟨⟨t, rfl⟩, ps1, rfl⟩
          | error e => rw [hr] at h; cases h
      | arr xs =>
        simp only [Json.joinParts] at h
        cases hx : (Json.arr xs).toStr with
        | error e => rw [hx] at h; cases h
        | ok t =>
          rw [hx] at h
          cases hr : Json.joinParts rest with
          | ok ps1 => exact ⟨⟨t, rfl⟩, ps1, rfl⟩
          | error e => rw [hr] at h; cases h
      | obj props =>
        simp only [Json.joinParts] at h
        cases hx : (Json.obj props).toStr with
        | error e => rw [hx] at h; cases h
        | ok t =>
          rw [hx] at h
          cases hr : Json.joinParts rest with
          | ok ps1 => exact ⟨⟨t, rfl⟩, ps1, rfl⟩
          | error e => rw [hr] at h; cases h
    obtain ⟨hx, ps1, hps1⟩ := hboth
    intro item hitem
    rcases List.mem_cons.mp hitem with rfl | hitem
    · exact hx
    · exact ih ps1 hps1 item hitem

/-- The elements of an array that has a string form have string forms. -/
theorem arr_items_toStr (items : List Json) (s : String) (h : (Json.arr items).toStr = .ok s) :
    ∀ item ∈ items, ∃ t, item.toStr = .ok t := by
  simp only [Json.toStr] at h
  cases hj : Json.joinParts items with
  | error e => rw [hj] at h; cases h
  | ok ps => exact joinParts_mem_toStr items ps hj

/-- The switch returns when the answer and the value have string forms. -/
theorem applyOperator_total (operator value answerValue : JsVal)
    (hv : ∃ s, value.toStr = .ok s) (ha : ∃ s, answerValue.toStr = .ok s) :
    ∃ b, applyOperator operator value answerValue = .ok b := by
  obtain ⟨sv, hsv⟩ := hv
  obtain ⟨sa, hsa⟩ := ha
  unfold applyOperator
  simp only [hsv, hsa]
  split
  · exact ⟨_, rfl⟩
  · split
    · exact ⟨_, rfl⟩
    · split
      · cases harr : answerValue.asArray with
        | none => exact ⟨_, rfl⟩
        | some items =>
          have hitems := asArray_eq_some answerValue items harr
          subst hitems
          exact (someIncludes_iff value sv hsv items (arr_items_toStr items sa hsa)).1
      · exact ⟨_, rfl⟩

/-- A condition `{ questionKey, operator, value }` has an individual result
when its value and the submitted answers have string forms. -/
theorem conditionResult_total (a : AnswerMap) (key op : String) (v : Json)
    (hv : ∃ s, v.toStr = .ok s)
    (hans : ∀ k x, a.lookup k = some x → ∃ s, x.toStr = .ok s) :
    ∃ b, conditionResult a (mkCondition key op v) = .ok b := by
  rw [conditionResult_mkCondition]
  split
  · exact ⟨_, rfl⟩
  · exact applyOperator_total _ _ _ hv (getProperty_toStr_ok a key hans)

/-- The evaluator returns a boolean on every rule set whose conditions are of
the form `{ questionKey, operator, value }` with a value that has a string
form, when the submitted answers have string forms. -/
theorem shouldShowQuestion_total (logic : Option Json) (cs : List Json) (a : AnswerMap)
    (hcs : ∀ c ∈ cs, ∃ key op v, c = mkCondition key op v ∧ ∃ s, v.toStr = .ok s)
    (hans : ∀ k x, a.lookup k = some x → ∃ s, x.toStr = .ok s) :
    ∃ b, shouldShowQuestion (mkRules logic (.arr cs)) a = .ok b := by
  rw [shouldShowQuestion_mkRules]
  split
  · exact ⟨_, rfl⟩
  · obtain ⟨rs, hrs⟩ := mapConditions_total a cs (fun c hc => by
      obtain ⟨key, op, v, hc2, hv⟩ := hcs c hc
      subst hc2
      exact conditionResult_total a key op v hv hans)
    rw [hrs]
    simp only
    split <;> exact ⟨_, rfl⟩

/-! ## Order of the conditions -/

theorem mapConditions_ok_mem (a : AnswerMap) (cs : List Json) (rs : List Bool)
    (h : mapConditions a cs = .ok rs) : ∀ c ∈ cs, ∃ r, conditionResult a c = .ok r := by
  have hf := (mapConditions_ok_iff a cs rs).mp h
  clear h
  induction hf with
  | nil => intro c hc; cases hc
  | cons h1 _ ih =>
    intro c hc
    rcases List.mem_cons.mp hc with rfl | hc
    · exact ⟨_, h1⟩
    · exact ih c hc

/-- When the evaluator returns on a non-empty conditions sequence: every
condition has a result, and the returned boolean is the disjunction of the
results under "OR" and their conjunction otherwise.  The description speaks of
the conditions only through membership. -/
theorem shouldShowQuestion_mkRules_ok_iff (logic : Option Json) (cs : List Json)
    (a : AnswerMap) (b : Bool) (hne : cs ≠ []) :
    shouldShowQuestion (mkRules logic (.arr cs)) a = .ok b ↔
      (∀ c ∈ cs, ∃ r, conditionResult a c = .ok r) ∧
        (b = true ↔
          if logicIsOr logic = true then ∃ c ∈ cs, conditionResult a c = .ok true
          else ∀ c ∈ cs, conditionResult a c = .ok true) := by
  rw [shouldShowQuestion_mkRules]
  have hlen : (cs.length == 0) = false := by
    cases cs with
    | nil => exact absurd rfl hne
    | cons c cs => rfl
  simp only [hlen, Bool.false_eq_true, if_false]
  cases hm : mapConditions a cs with
  | error e =>
    simp only [reduceCtorEq, false_iff, not_and]
    intro hall
    obtain ⟨rs, hrs⟩ := mapConditions_total a cs hall
    rw [hm] at hrs
    cases hrs
  | ok rs =>
    have hf := (mapConditions_ok_iff a cs rs).mp hm
    have hmem := mapConditions_ok_mem a cs rs hm
    by_cases hor : logicIsOr logic = true
    · simp only [hor, if_true, Except.ok.injEq]
      constructor
      · intro hb
        exact ⟨hmem, by rw [← hb]; exact forall₂_any_iff a cs rs hf⟩
      · rintro ⟨_, hb⟩
        have := (forall₂_any_iff a cs rs hf).trans hb.symm
        cases b <;> cases hany : rs.any (fun result => result == true) <;> simp_all
    · simp only [hor, Bool.false_eq_true, if_false, Except.ok.injEq]
      constructor
      · intro hb
        exact ⟨hmem, by rw [← hb]; exact forall₂_all_iff a cs rs hf⟩
      · rintro ⟨_, hb⟩
        have := (forall₂_all_iff a cs rs hf).trans hb.symm
        cases b <;> cases hall : rs.all (fun result => result == true) <;> simp_all

theorem except_eq_of_ok_iff (x y : Except JsError Bool) (h : ∀ b, x = .ok b ↔ y = .ok b) :
    x = y := by
  cases x with
  | ok b => exact ((h b).mp rfl).symm
  | error e =>
    cases y with
    | ok b => exact absurd ((h b).mpr rfl) (by simp)
    | error e2 => cases e; cases e2; rfl

/-- C18 (order of conditions): for every logic value, present or absent, every
answers map and every two conditions sequences that are permutations of one
another, the evaluator gives the same result on both. -/
theorem shouldShowQuestion_perm (logic : Option Json) (cs1 cs2 : List Json) (a : AnswerMap)
    (hperm : cs1.Perm cs2) :
    shouldShowQuestion (mkRules logic (.arr cs1)) a =
      shouldShowQuestion (mkRules logic (.arr cs2)) a := by
  by_cases hne : cs1 = []
  · subst hne
    rw [List.nil_perm.mp hperm]
  · have hne2 : cs2 ≠ [] := fun h => hne (by subst h; exact List.perm_nil.mp hperm)
    apply except_eq_of_ok_iff
    intro b
    rw [shouldShowQuestion_mkRules_ok_iff logic cs1 a b hne,
      shouldShowQuestion_mkRules_ok_iff logic cs2 a b hne2]
    have hmem : ∀ c, c ∈ cs1 ↔ c ∈ cs2 := fun c => hperm.mem_iff
    simp only [hmem]

/-- An instance of C18: swapping the two conditions of the OR test. -/
theorem shouldShowQuestion_perm_witness :
    shouldShowQuestion
        (mkRules (some (.str "OR"))
          (.arr [mkCondition "q1" "equals" (.str "yes"), mkCondition "q2" "equals" (.str "no")]))
        [("q1", .str "yes"), ("q2", .str "maybe")] =
      shouldShowQuestion
        (mkRules (some (.str "OR"))
          (.arr [mkCondition "q2" "equals" (.str "no"), mkCondition "q1" "equals" (.str "yes")]))
        [("q1", .str "yes"), ("q2", .str "maybe")] :=
  shouldShowQuestion_perm _ _ _ _ (List.Perm.swap _ _ _)

/-! ## Render time against submit time -/

theorem readField_eq_recordField (c : Json) (name : String) (v : JsVal)
    (hname : objectPrototypeMember name = .undefined) (h : readField (.json c) name = .ok v) :
    v = recordField (.json c) name := by
  cases c with
  | null => cases h
  | obj props =>
    simp only [readField, getProperty, Except.ok.injEq] at h
    simp only [recordField]
    cases hl : props.lookup name with
    | none => rw [hl] at h; simp only [hname] at h; exact h.symm
    | some x => rw [hl] at h; exact h.symm
  | bool b => simp only [readField, Except.ok.injEq] at h; exact h.symm
  | num n => simp only [readField, Except.ok.injEq] at h; exact h.symm
  | str t => simp only [readField, Except.ok.injEq] at h; exact h.symm
  | arr items => simp only [readField, Except.ok.injEq] at h; exact h.symm

theorem getProperty_eq_answerOf (a : AnswerMap) (key : String)
    (hkey : objectPrototypeMember key = .undefined) : getProperty a key = answerOf a key := by
  unfold getProperty answerOf
  cases a.lookup key with
  | none => exact hkey
  | some v => rfl

theorem someIncludes_agree (value : JsVal) (items : List Json) (b : Bool)
    (h : someIncludes value items = .ok b) :
    items.any (fun item => stringFormContains (.json item) value) = b := by
  induction items with
  | nil =>
    simp only [someIncludes, Except.ok.injEq] at h
    simpa using h
  | cons item rest ih =>
    simp only [someIncludes] at h
    cases hs : item.toStr with
    | error e => rw [hs] at h; cases h
    | ok t =>
      rw [hs] at h
      cases hv : value.toStr with
      | error e => rw [hv] at h; cases h
      | ok sv =>
        rw [hv] at h
        have hj : (JsVal.json item).toStr = .ok t := hs
        have hfirst : stringFormContains (.json item) value = includes t sv := by
          simp only [stringFormContains, hj, hv]
        simp only [List.any_cons, hfirst]
        by_cases hinc : includes t sv = true
        · simp only [hinc, if_true, Except.ok.injEq] at h
          simp [hinc, ← h]
        · simp only [hinc, Bool.false_eq_true, if_false] at h
          simp [hinc, ih h]

theorem applyOperator_agree (operator value answerValue : JsVal) (b : Bool)
    (h : applyOperator operator value answerValue = .ok b) :
    (if operator.strictEqStr "equals" then
        match answerValue.toStr, value.toStr with
        | .ok s, .ok v => s == v
        | _, _ => false
      else if operator.strictEqStr "notEquals" then
        match answerValue.toStr, value.toStr with
        | .ok s, .ok v => s != v
        | _, _ => false
      else if operator.strictEqStr "contains" then
        match answerValue.asArray with
        | some items => items.any (fun item => stringFormContains (.json item) value)
        | none => stringFormContains answerValue value
      else false) = b := by
  unfold applyOperator at h
  by_cases h1 : operator.strictEqStr "equals" = true
  · simp only [h1, if_true] at h ⊢
    cases hs : answerValue.toStr with
    | error e => rw [hs] at h; cases h
    | ok s =>
      rw [hs] at h
      cases hv : value.toStr with
      | error e => rw [hv] at h; cases h
      | ok v => rw [hv] at h; simpa using h
  · simp only [h1, Bool.false_eq_true, if_false] at h ⊢
    by_cases h2 : operator.strictEqStr "notEquals" = true
    · simp only [h2, if_true] at h ⊢
      cases hs : answerValue.toStr with
      | error e => rw [hs] at h; cases h
      | ok s =>
        rw [hs] at h
        cases hv : value.toStr with
        | error e => rw [hv] at h; cases h
        | ok v => rw [hv] at h; simpa using h
    · simp only [h2, Bool.false_eq_true, if_false] at h ⊢
      by_cases h3 : operator.strictEqStr "contains" = true
      · simp only [h3, if_true] at h ⊢
        cases harr : answerValue.asArray with
        | some items =>
          rw [harr] at h
          exact someIncludes_agree value items b h
        | none =>
          rw [harr] at h
          simp only at h ⊢
          cases hs : answerValue.toStr with
          | error e => rw [hs] at h; cases h
          | ok s =>
            rw [hs] at h
            cases hv : value.toStr with
            | error e => rw [hv] at h; cases h
            | ok v =>
              rw [hv] at h
              simp only [stringFormContains, hs, hv]
              simpa using h
      · simp only [h3, Bool.false_eq_true, if_false] at h ⊢
        simpa using h

/-- A condition on which the render-time evaluator has a result, and whose
key is not the name of an `Object.prototype` member, has the same result at
submit time. -/
theorem conditionResult_agree (a : AnswerMap) (c : Json) (b : Bool)
    (h : conditionResult a c = .ok b)
    (hkey : ∀ key, (recordField (.json c) "questionKey").toStr = .ok key →
      objectPrototypeMember key = .undefined) :
    backendConditionResult a c = b := by
  unfold conditionResult at h
  cases hq : readField (.json c) "questionKey" with
  | error e => rw [hq] at h; cases h
  | ok qk =>
    rw [hq] at h
    cases ho : readField (.json c) "operator" with
    | error e => rw [ho] at h; cases h
    | ok op =>
      rw [ho] at h
      cases hv : readField (.json c) "value" with
      | error e => rw [hv] at h; cases h
      | ok value =>
        rw [hv] at h
        have eq := readField_eq_recordField c "questionKey" qk rfl hq
        have eo := readField_eq_recordField c "operator" op rfl ho
        have ev := readField_eq_recordField c "value" value rfl hv
        subst eq eo ev
        simp only at h
        cases hk : (recordField (.json c) "questionKey").toStr with
        | error e => rw [hk] at h; cases h
        | ok key =>
          rw [hk] at h
          simp only at h
          rw [getProperty_eq_answerOf a key (hkey key hk)] at h
          simp only [backendConditionResult, hk]
          by_cases hm : isMissing (answerOf a key) = true
          · simp only [hm, if_true, Except.ok.injEq] at h ⊢
            exact h
          · simp only [hm, Bool.false_eq_true, if_false] at h ⊢
            exact applyOperator_agree _ _ _ b h

theorem mapConditions_agree (a : AnswerMap) (cs : List Json) (rs : List Bool)
    (h : mapConditions a cs = .ok rs)
    (hkey : ∀ c ∈ cs, ∀ key, (recordField (.json c) "questionKey").toStr = .ok key →
      objectPrototypeMember key = .undefined) :
    rs = cs.map (backendConditionResult a) := by
  have hf := (mapConditions_ok_iff a cs rs).mp h
  clear h
  induction hf with
  | nil => rfl
  | @cons c r cs rs h1 _ ih =>
    rw [List.map_cons, conditionResult_agree a c r h1 (hkey c (List.mem_cons_self _ _)),
      ← ih (fun c2 hc2 => hkey c2 (List.mem_cons_of_mem _ hc2))]

theorem any_map_eq_true (f : Json → Bool) (l : List Json) :
    (l.map f).any (fun result => result == true) = l.any f := by
  induction l with
  | nil => rfl
  | cons x xs ih =>
    rw [List.map_cons, List.any_cons, List.any_cons, ih]
    cases f x <;> rfl

theorem all_map_eq_true (f : Json → Bool) (l : List Json) :
    (l.map f).all (fun result => result == true) = l.all f := by
  induction l with
  | nil => rfl
  | cons x xs ih =>
    rw [List.map_cons, List.all_cons, List.all_cons, ih]
    cases f x <;> rfl

/-- The defaulting `logic || 'AND'` of the code and `logic ?? "AND"` of the
algorithm select the same combination. -/
theorem logic_default_agree (l : JsVal) :
    (if l.truthy then l else JsVal.json (.str "AND")).strictEqStr "OR" =
      (match l with
        | .undefined => JsVal.json (.str "AND")
        | .json .null => JsVal.json (.str "AND")
        | l => l).strictEqStr "OR" := by
  cases l with
  | undefined => rfl
  | json j =>
    cases j with
    | null => rfl
    | bool b => cases b <;> rfl
    | num n => by_cases hn : n = 0 <;> simp [JsVal.truthy, JsVal.strictEqStr, hn]
    | str t =>
      by_cases ht : t = ""
      · subst ht
        decide
      · simp [JsVal.truthy, ht]
    | arr items => rfl
    | obj props => rfl
  | builtin n => rfl
  | objectPrototype => rfl

/-- Refinement of the algorithm by the code: whenever the render-time
evaluator returns a boolean, and no condition is keyed by the name of an
`Object.prototype` member, the submit-time evaluator returns the same boolean. -/
theorem shouldShowQuestion_agree (rules : JsVal) (a : AnswerMap) (b : Bool)
    (h : shouldShowQuestion rules a = .ok b)
    (hkey : ∀ cs, recordField rules "conditions" = .json (.arr cs) → ∀ c ∈ cs, ∀ key,
      (recordField (.json c) "questionKey").toStr = .ok key →
        objectPrototypeMember key = .undefined) :
    backendShouldShowQuestion rules a = b := by
  cases rules with
  | undefined =>
    have hb : b = true := by simpa [shouldShowQuestion, JsVal.truthy] using h
    subst hb; rfl
  | builtin n =>
    have hb : b = true := by simpa [shouldShowQuestion, JsVal.truthy, readField] using h
    subst hb; rfl
  | objectPrototype =>
    have hb : b = true := by simpa [shouldShowQuestion, JsVal.truthy, readField] using h
    subst hb; rfl
  | json j =>
    cases j with
    | null =>
      have hb : b = true := by simpa [shouldShowQuestion, JsVal.truthy] using h
      subst hb; rfl
    | bool t =>
      have hb : b = true := by
        cases t <;> simpa [shouldShowQuestion, JsVal.truthy, readField] using h
      subst hb; rfl
    | num n =>
      have hb : b = true := by
        by_cases hn : n = 0 <;> simpa [shouldShowQuestion, JsVal.truthy, readField, hn] using h
      subst hb; rfl
    | str t =>
      have hb : b = true := by
        by_cases ht : t = "" <;> simpa [shouldShowQuestion, JsVal.truthy, readField, ht] using h
      subst hb; rfl
    | arr items =>
      have hb : b = true := by simpa [shouldShowQuestion, JsVal.truthy, readField] using h
      subst hb; rfl
    | obj props =>
      have hc := readField_eq_recordField (.obj props) "conditions" _ rfl rfl
      have hl := readField_eq_recordField (.obj props) "logic" _ rfl rfl
      unfold shouldShowQuestion at h
      simp only [truthy_obj, Bool.not_true, Bool.false_eq_true, if_false, readField] at h
      rw [hc, hl] at h
      simp only [backendShouldShowQuestion]
      cases harr : (recordField (.json (.obj props)) "conditions").asArray with
      | none =>
        rw [harr] at h
        by_cases ht : (recordField (.json (.obj props)) "conditions").truthy = true
        · simpa [ht] using h
        · simpa [ht] using h
      | some cs =>
        have hcs := asArray_eq_some _ cs harr
        rw [harr] at h
        rw [hcs] at h
        simp only [truthy_arr, Bool.not_true, Bool.false_eq_true, if_false] at h
        cases cs with
        | nil => simpa using h
        | cons c cs =>
          have hlen : ((c :: cs).length == 0) = false := rfl
          simp only [hlen, Bool.false_eq_true, if_false] at h
          cases hm : mapConditions a (c :: cs) with
          | error e => rw [hm] at h; cases h
          | ok rs =>
            rw [hm] at h
            have hrs := mapConditions_agree a (c :: cs) rs hm (hkey (c :: cs) hcs)
            simp only [logic_default_agree] at h
            simp only
            by_cases hor : (match recordField (.json (.obj props)) "logic" with
                | .undefined => JsVal.json (.str "AND")
                | .json .null => JsVal.json (.str "AND")
                | l => l).strictEqStr "OR" = true
            · simp only [hor, if_true, Except.ok.injEq] at h ⊢
              rw [← h, hrs, any_map_eq_true]
            · simp only [hor, Bool.false_eq_true, if_false, Except.ok.injEq] at h ⊢
              rw [← h, hrs, all_map_eq_true]

/-- Where the code leaves the algorithm of section 4.1: on the empty answers
map, the rule set whose single condition is `{constructor, notEquals, "test"}`
evaluates to true in the code and to false in the algorithm; and the rule set
whose conditions sequence is `[null]` throws in the code where the algorithm
gives false. -/
theorem shouldShowQuestion_render_submit_differ :
    shouldShowQuestion
        (mkRules (some (.str "AND")) (.arr [mkCondition "constructor" "notEquals" (.str "test")]))
        [] = .ok true ∧
      backendShouldShowQuestion
        (mkRules (some (.str "AND")) (.arr [mkCondition "constructor" "notEquals" (.str "test")]))
        [] = false ∧
      shouldShowQuestion (mkRules (some (.str "AND")) (.arr [.null])) [] = .error .typeError ∧
      backendShouldShowQuestion (mkRules (some (.str "AND")) (.arr [.null])) [] = false :=
  ⟨by decide, by decide, by decide, by decide⟩

/-! ## The form builder: question keys -/

/-- C20 (question keys in the builder): selecting the fields A and B,
deselecting A and selecting C leaves two selected questions that both carry
the key "q2". -/
theorem handleFieldToggle_duplicate_questionKey :
    (List.foldl handleFieldToggle []
        [⟨"fldA", "Name", "singleLineText", .obj []⟩, ⟨"fldB", "Email", "singleLineText", .obj []⟩,
          ⟨"fldA", "Name", "singleLineText", .obj []⟩, ⟨"fldC", "Notes", "longText", .obj []⟩]).map
        (fun q => (q.questionKey, q.airtableFieldId)) = [("q2", "fldB"), ("q2", "fldC")] ∧
      ¬ ((List.foldl handleFieldToggle []
        [⟨"fldA", "Name", "singleLineText", .obj []⟩, ⟨"fldB", "Email", "singleLineText", .obj []⟩,
          ⟨"fldA", "Name", "singleLineText", .obj []⟩, ⟨"fldC", "Notes", "longText", .obj []⟩]).map
        (fun q => q.questionKey)).Nodup :=
  ⟨by decide, by decide⟩

/-! ## The submit route: the question loop -/

/-- The type switch ends in exactly one `errors.push` or one assignment under
the question's `airtableFieldId`. -/
theorem validateAnswer_cases (fieldMap : List (String × Json)) (q : Question) (answer : JsVal)
    (st st2 : SubmitState) (h : validateAnswer fieldMap q answer st = .ok st2) :
    (∃ msg, st2 = st.pushError msg) ∨ (∃ v, st2 = st.write q.airtableFieldId v) := by
  unfold validateAnswer at h
  simp only at h
  repeat' split at h
  all_goals
    cases h <;> first
    | exact Or.inl ⟨_, rfl⟩
    | exact Or.inr ⟨_, rfl⟩

/-- A hidden question leaves the accumulators as they are. -/
theorem submitStep_hidden (shouldShow : JsVal → AnswerMap → Except JsError Bool)
    (fieldMap : List (String × Json)) (answers : AnswerMap) (st : SubmitState) (q : Question)
    (h : shouldShow (.json q.conditionalRules) answers = .ok false) :
    submitStep shouldShow fieldMap answers st q = .ok st := by
  simp [submitStep, h]

/-- What one pass of the loop body can do: nothing for a hidden question; for
a visible one nothing, one `errors.push`, or one assignment under the
question's `airtableFieldId`, the latter only with a present answer. -/
theorem submitStep_cases (shouldShow : JsVal → AnswerMap → Except JsError Bool)
    (fieldMap : List (String × Json)) (answers : AnswerMap) (st st2 : SubmitState)
    (q : Question) (h : submitStep shouldShow fieldMap answers st q = .ok st2) :
    (shouldShow (.json q.conditionalRules) answers = .ok false ∧ st2 = st) ∨
      (shouldShow (.json q.conditionalRules) answers = .ok true ∧
        (st2 = st ∨ (∃ msg, st2 = st.pushError msg) ∨
          (Present (getProperty answers q.questionKey) ∧
            ∃ v, st2 = st.write q.airtableFieldId v))) := by
  unfold submitStep at h
  cases hs : shouldShow (.json q.conditionalRules) answers with
  | error e => rw [hs] at h; cases h
  | ok visible =>
    rw [hs] at h
    cases visible with
    | false =>
      simp only [Bool.not_false, if_true, Except.ok.injEq] at h
      exact Or.inl ⟨rfl, h.symm⟩
    | true =>
      simp only [Bool.not_true, Bool.false_eq_true, if_false] at h
      refine Or.inr ⟨rfl, ?_⟩
      by_cases hreq : (q.required && isUnanswered (getProperty answers q.questionKey)) = true
      · simp only [hreq, if_true, Except.ok.injEq] at h
        exact Or.inr (Or.inl ⟨_, h.symm⟩)
      · simp only [hreq, Bool.false_eq_true, if_false] at h
        by_cases hm : isMissing (getProperty answers q.questionKey) = true
        · simp only [hm, Bool.not_true, Bool.false_eq_true, if_false, Except.ok.injEq] at h
          exact Or.inl h.symm
        · have hm2 : isMissing (getProperty answers q.questionKey) = false := by simpa using hm
          simp only [hm2, Bool.not_false, if_true] at h
          rcases validateAnswer_cases fieldMap q _ st st2 h with hmsg | hw
          · exact Or.inr (Or.inl hmsg)
          · exact Or.inr (Or.inr ⟨(isMissing_eq_false_iff _).mp hm2, hw⟩)

theorem mem_keys_setField (fields : List (String × JsVal)) (key k : String) (v : JsVal)
    (h : k ∈ (setField fields key v).map Prod.fst) : k = key ∨ k ∈ fields.map Prod.fst := by
  unfold setField at h
  by_cases hp : (key == "__proto__") = true
  · simp only [hp, if_true] at h
    exact Or.inr h
  · simp only [hp, Bool.false_eq_true, if_false, List.map_cons, List.mem_cons] at h
    rcases h with h | h
    · exact Or.inl h
    · right
      obtain ⟨p, hp1, hp2⟩ := List.mem_map.mp h
      exact List.mem_map.mpr ⟨p, (List.mem_filter.mp hp1).1, hp2⟩

/-- Invariant of the question loop: every key of `airtableFields` was there
at the start or is the `airtableFieldId` of a question of the form that
evaluates visible and whose answer is present. -/
theorem submitLoop_keys (shouldShow : JsVal → AnswerMap → Except JsError Bool)
    (fieldMap : List (String × Json)) (answers : AnswerMap) (qs : List Question)
    (st st2 : SubmitState) (h : submitLoop shouldShow fieldMap answers qs st = .ok st2)
    (k : String) (hk : k ∈ st2.airtableFields.map Prod.fst) :
    k ∈ st.airtableFields.map Prod.fst ∨
      ∃ q ∈ qs, q.airtableFieldId = k ∧
        shouldShow (.json q.conditionalRules) answers = .ok true ∧
        Present (getProperty answers q.questionKey) := by
  induction qs generalizing st with
  | nil =>
    simp only [submitLoop, Except.ok.injEq] at h
    subst h
    exact Or.inl hk
  | cons q qs ih =>
    simp only [submitLoop] at h
    cases hstep : submitStep shouldShow fieldMap answers st q with
    | error e => rw [hstep] at h; cases h
    | ok st1 =>
      rw [hstep] at h
      rcases ih st1 h with hin | ⟨q2, hq2, hrest⟩
      · rcases submitStep_cases shouldShow fieldMap answers st st1 q hstep with
          ⟨_, heq⟩ | ⟨hvis, heq | ⟨msg, heq⟩ | ⟨hpres, v, heq⟩⟩
        · subst heq; exact Or.inl hin
        · subst heq; exact Or.inl hin
        · subst heq; exact Or.inl hin
        · subst heq
          rcases mem_keys_setField _ _ _ _ hin with hkey | hold
          · exact Or.inr ⟨q, List.mem_cons_self _ _, hkey.symm, hvis, hpres⟩
          · exact Or.inl hold
      · exact Or.inr ⟨q2, List.mem_cons_of_mem _ hq2, hrest⟩

theorem lookup_eq_none_of_not_mem_keys (fields : List (String × JsVal)) (k : String)
    (h : k ∉ fields.map Prod.fst) : fields.lookup k = none := by
  rw [List.lookup_eq_none_iff]
  intro p hp
  have hne : k ≠ p.1 := fun heq => h (List.mem_map.mpr ⟨p, hp, heq.symm⟩)
  simpa using hne

/-- The errors recorded so far stay recorded. -/
theorem submitLoop_errors_mono (shouldShow : JsVal → AnswerMap → Except JsError Bool)
    (fieldMap : List (String × Json)) (answers : AnswerMap) (qs : List Question)
    (st st2 : SubmitState) (h : submitLoop shouldShow fieldMap answers qs st = .ok st2)
    (msg : String) (hmsg : msg ∈ st.errors) : msg ∈ st2.errors := by
  induction qs generalizing st with
  | nil =>
    simp only [submitLoop, Except.ok.injEq] at h
    subst h
    exact hmsg
  | cons q qs ih =>
    simp only [submitLoop] at h
    cases hstep : submitStep shouldShow fieldMap answers st q with
    | error e => rw [hstep] at h; cases h
    | ok st1 =>
      rw [hstep] at h
      apply ih st1 h
      rcases submitStep_cases shouldShow fieldMap answers st st1 q hstep with
        ⟨_, heq⟩ | ⟨_, heq | ⟨m, heq⟩ | ⟨_, v, heq⟩⟩
      · subst heq; exact hmsg
      · subst heq; exact hmsg
      · subst heq; exact List.mem_append_left _ hmsg
      · subst heq; exact hmsg

/-- C15 (hidden fields, as amended): when every question of the form that is
mapped to the Airtable field of `q` evaluates hidden, the accumulated
`airtableFields` has no entry for `q.airtableFieldId` after the loop, and
neither has the record the route sends. -/
theorem submitLoop_hidden_not_written (shouldShow : JsVal → AnswerMap → Except JsError Bool)
    (fieldMap : List (String × Json)) (answers : AnswerMap) (qs : List Question) (q : Question)
    (hhidden : ∀ q2 ∈ qs, q2.airtableFieldId = q.airtableFieldId →
      shouldShow (.json q2.conditionalRules) answers = .ok false) :
    (∀ st, submitLoop shouldShow fieldMap answers qs ⟨[], []⟩ = .ok st →
        st.airtableFields.lookup q.airtableFieldId = none) ∧
      (∀ fields, submitOutcome shouldShow fieldMap answers qs = .createRecord fields →
        fields.lookup q.airtableFieldId = none) := by
  have hloop : ∀ st, submitLoop shouldShow fieldMap answers qs ⟨[], []⟩ = .ok st →
      st.airtableFields.lookup q.airtableFieldId = none := by
    intro st hrun
    apply lookup_eq_none_of_not_mem_keys
    intro hk
    rcases submitLoop_keys shouldShow fieldMap answers qs ⟨[], []⟩ st hrun _ hk with
      hin | ⟨q2, hq2, hid, hvis, _⟩
    · cases hin
    · rw [hhidden q2 hq2 hid] at hvis
      cases hvis
  refine ⟨hloop, ?_⟩
  intro fields hout
  unfold submitOutcome at hout
  cases hrun : submitLoop shouldShow fieldMap answers qs ⟨[], []⟩ with
  | error e => rw [hrun] at hout; cases hout
  | ok st =>
    rw [hrun] at hout
    simp only at hout
    split at hout
    · cases hout
    · cases hout
      exact hloop st hrun

/-- An instance of C15: the hidden question `q2` is answered in the request
body, the visible question `q1` is written, and nothing is written for the
Airtable field of `q2`. -/
theorem submitLoop_hidden_not_written_witness :
    backendShouldShowQuestion
        (mkRules (some (.str "AND")) (.arr [mkCondition "q1" "equals" (.str "yes")]))
        [("q1", .str "no"), ("q2", .str "secret")] = false ∧
      List.lookup "fldB"
        ([("fldA", JsVal.json (.str "no"))] : List (String × JsVal)) = none :=
  ⟨by decide,
   (submitLoop_hidden_not_written (fun rules answers => .ok (backendShouldShowQuestion rules answers))
      [] [("q1", .str "no"), ("q2", .str "secret")]
      [⟨"q1", "fldA", "Agree", "singleLineText", false, .null, .obj []⟩,
        ⟨"q2", "fldB", "Details", "singleLineText", false,
          .obj [("logic", .str "AND"), ("conditions", .arr [mkCondition "q1" "equals" (.str "yes")])],
          .obj []⟩]
      ⟨"q2", "fldB", "Details", "singleLineText", false,
          .obj [("logic", .str "AND"), ("conditions", .arr [mkCondition "q1" "equals" (.str "yes")])],
          .obj []⟩
      (by decide)).1 ⟨[("fldA", .json (.str "no"))], []⟩ rfl⟩

/-- C15 (counterexample): two questions mapped to the same Airtable field, the
first hidden and the second visible; the answer of the second is written, so
the record has an entry for the `airtableFieldId` of the hidden question. -/
theorem submitLoop_hidden_field_written :
    backendShouldShowQuestion
        (mkRules (some (.str "AND")) (.arr [mkCondition "q0" "equals" (.str "yes")]))
        [("q1", .str "secret"), ("q2", .str "Ada")] = false ∧
      (match
          submitOutcome (fun rules answers => .ok (backendShouldShowQuestion rules answers)) []
            [("q1", .str "secret"), ("q2", .str "Ada")]
            [⟨"q1", "fldA", "Nickname", "singleLineText", false,
                .obj [("logic", .str "AND"),
                  ("conditions", .arr [mkCondition "q0" "equals" (.str "yes")])],
                .obj []⟩,
              ⟨"q2", "fldA", "Name", "singleLineText", false, .null, .obj []⟩] with
        | .createRecord fields => (fields.lookup "fldA").isSome
        | _ => false) = true :=
  ⟨by decide, by decide⟩

/-- C16 (hidden questions are not validated): from every state of the
accumulators the question loop gives the same errors and the same record as
the loop over the form with every hidden question removed, and the route ends
the same way. -/
theorem submitLoop_filter_hidden (shouldShow : JsVal → AnswerMap → Except JsError Bool)
    (fieldMap : List (String × Json)) (answers : AnswerMap) (qs : List Question) :
    (∀ st, submitLoop shouldShow fieldMap answers qs st =
        submitLoop shouldShow fieldMap answers
          (qs.filter (fun q => decide (shouldShow (.json q.conditionalRules) answers ≠ .ok false)))
          st) ∧
      submitOutcome shouldShow fieldMap answers qs =
        submitOutcome shouldShow fieldMap answers
          (qs.filter (fun q => decide (shouldShow (.json q.conditionalRules) answers ≠ .ok false))) := by
  have hloop : ∀ st, submitLoop shouldShow fieldMap answers qs st =
      submitLoop shouldShow fieldMap answers
        (qs.filter (fun q => decide (shouldShow (.json q.conditionalRules) answers ≠ .ok false)))
        st := by
    induction qs with
    | nil => intro st; rfl
    | cons q qs ih =>
      intro st
      by_cases hq : shouldShow (.json q.conditionalRules) answers = .ok false
      · rw [List.filter_cons_of_neg (by simp [hq])]
        simp only [submitLoop, submitStep_hidden shouldShow fieldMap answers st q hq]
        exact ih st
      · rw [List.filter_cons_of_pos (by simp [hq])]
        simp only [submitLoop]
        cases submitStep shouldShow fieldMap answers st q with
        | error e => rfl
        | ok st1 => exact ih st1
  refine ⟨hloop, ?_⟩
  unfold submitOutcome
  rw [hloop]

/-! ## The submit route: when the loop runs to its end -/

theorem joinParts_filter (items : List Json) (keep : Json → Bool) (ps : List String)
    (h : Json.joinParts items = .ok ps) : ∃ ps2, Json.joinParts (items.filter keep) = .ok ps2 := by
  induction items generalizing ps with
  | nil => exact ⟨[], rfl⟩
  | cons x rest ih =>
    have hrest : ∃ ps1, Json.joinParts rest = .ok ps1 := by
      cases x <;> simp only [Json.joinParts] at h <;>
        (cases hr : Json.joinParts rest with
          | ok ps1 => exact ⟨ps1, rfl⟩
          | error e => rw [hr] at h; first | cases h | (split at h <;> cases h))
    obtain ⟨ps1, hps1⟩ := hrest
    obtain ⟨ps2, hps2⟩ := ih ps1 hps1
    by_cases hk : keep x = true
    · rw [List.filter_cons_of_pos hk]
      cases x with
      | null => exact ⟨"" :: ps2, by simp only [Json.joinParts, hps2]⟩
      | bool b =>
        cases hx : (Json.bool b).toStr with
        | ok t => exact ⟨t :: ps2, by simp only [Json.joinParts, hx, hps2]⟩
        | error e => simp only [Json.joinParts, hx] at h; cases h
      | num n =>
        cases hx : (Json.num n).toStr with
        | ok t => exact ⟨t :: ps2, by simp only [Json.joinParts, hx, hps2]⟩
        | error e => simp only [Json.joinParts, hx] at h; cases h
      | str t0 =>
        cases hx : (Json.str t0).toStr with
        | ok t => exact ⟨t :: ps2, by simp only [Json.joinParts, hx, hps2]⟩
        | error e => simp only [Json.joinParts, hx] at h; cases h
      | arr xs =>
        cases hx : (Json.arr xs).toStr with
        | ok t => exact ⟨t :: ps2, by simp only [Json.joinParts, hx, hps2]⟩
        | error e => simp only [Json.joinParts, hx] at h; cases h
      | obj props =>
        cases hx : (Json.obj props).toStr with
        | ok t => exact ⟨t :: ps2, by simp only [Json.joinParts, hx, hps2]⟩
        | error e => simp only [Json.joinParts, hx] at h; cases h
    · rw [List.filter_cons_of_neg hk]
      exact ⟨ps2, hps2⟩

/-- The type switch returns when the answer has a string form and the choices
of the Airtable field, if any, are a sequence without `null` entries. -/
theorem validateAnswer_total (fieldMap : List (String × Json)) (q : Question) (answer : JsVal)
    (st : SubmitState) (hprint : ∃ s, answer.toStr = .ok s)
    (hchoices :
      (optionalChain (optionalChain (getProperty fieldMap q.airtableFieldId) "options")
        "choices").truthy = true →
      ∃ vs, validChoicesOf (optionalChain
        (optionalChain (getProperty fieldMap q.airtableFieldId) "options") "choices") = .ok vs) :
    ∃ st2, validateAnswer fieldMap q answer st = .ok st2 := by
  obtain ⟨s, hs⟩ := hprint
  unfold validateAnswer
  simp only
  by_cases ht : (optionalChain (optionalChain (getProperty fieldMap q.airtableFieldId) "options")
      "choices").truthy = true
  · obtain ⟨vs, hvs⟩ := hchoices ht
    simp only [ht, if_true, hvs, hs]
    split
    · split <;> exact ⟨_, rfl⟩
    · split
      · cases harr : answer.asArray with
        | none => exact ⟨_, rfl⟩
        | some items =>
          simp only
          split
          · have hitems := asArray_eq_some answer items harr
            subst hitems
            simp only [JsVal.toStr, Json.toStr] at hs
            cases hj : Json.joinParts items with
            | error e => rw [hj] at hs; cases hs
            | ok ps =>
              obtain ⟨ps2, hps2⟩ := joinParts_filter items
                (fun x => !vs.any (fun c => sameValueZero c (.json x))) ps hj
              simp only [hps2]
              exact ⟨_, rfl⟩
          · exact ⟨_, rfl⟩
      · split
        · split <;> exact ⟨_, rfl⟩
        · split <;> exact ⟨_, rfl⟩
  · simp only [ht, Bool.false_eq_true, if_false, hs]
    split
    · exact ⟨_, rfl⟩
    · split
      · cases harr : answer.asArray with
        | none => exact ⟨_, rfl⟩
        | some items => exact ⟨_, rfl⟩
      · split
        · split <;> exact ⟨_, rfl⟩
        · split <;> exact ⟨_, rfl⟩

/-- The question loop runs to its end when the evaluator returns on every
question, every submitted answer has a string form, and the choices of the
Airtable fields are sequences without `null` entries. -/
theorem submitLoop_total (shouldShow : JsVal → AnswerMap → Except JsError Bool)
    (fieldMap : List (String × Json)) (answers : AnswerMap) (qs : List Question)
    (st : SubmitState)
    (heval : ∀ q ∈ qs, ∃ b, shouldShow (.json q.conditionalRules) answers = .ok b)
    (hans : ∀ k v, answers.lookup k = some v → ∃ s, v.toStr = .ok s)
    (hchoices : ∀ q ∈ qs,
      (optionalChain (optionalChain (getProperty fieldMap q.airtableFieldId) "options")
        "choices").truthy = true →
      ∃ vs, validChoicesOf (optionalChain
        (optionalChain (getProperty fieldMap q.airtableFieldId) "options") "choices") = .ok vs) :
    ∃ st2, submitLoop shouldShow fieldMap answers qs st = .ok st2 := by
  induction qs generalizing st with
  | nil => exact ⟨st, rfl⟩
  | cons q qs ih =>
    have hstep : ∃ st1, submitStep shouldShow fieldMap answers st q = .ok st1 := by
      obtain ⟨b, hb⟩ := heval q (List.mem_cons_self _ _)
      unfold submitStep
      rw [hb]
      simp only
      split
      · exact ⟨_, rfl⟩
      · split
        · exact ⟨_, rfl⟩
        · split
          · exact validateAnswer_total fieldMap q _ st
              (getProperty_toStr_ok answers q.questionKey hans)
              (hchoices q (List.mem_cons_self _ _))
          · exact ⟨_, rfl⟩
    obtain ⟨st1, hst1⟩ := hstep
    simp only [submitLoop, hst1]
    exact ih st1 (fun q2 h2 => heval q2 (List.mem_cons_of_mem _ h2))
      (fun q2 h2 => hchoices q2 (List.mem_cons_of_mem _ h2))

/-! ## The submit route: required questions -/

/-- The loop body on a visible, required, unanswered question: one
`errors.push` and no assignment. -/
theorem submitStep_required (shouldShow : JsVal → AnswerMap → Except JsError Bool)
    (fieldMap : List (String × Json)) (answers : AnswerMap) (st : SubmitState) (q : Question)
    (hvis : shouldShow (.json q.conditionalRules) answers = .ok true)
    (hreq : q.required = true)
    (hans : isUnanswered (getProperty answers q.questionKey) = true) :
    submitStep shouldShow fieldMap answers st q =
      .ok ⟨st.airtableFields, st.errors ++ [q.label ++ " is required"]⟩ := by
  simp [submitStep, hvis, hreq, hans, SubmitState.pushError]

theorem isUnanswered_of_empty (answer : JsVal)
    (h : answer = .undefined ∨ answer = .json .null ∨ answer = .json (.str "") ∨
      answer = .json (.arr [])) : isUnanswered answer = true := by
  rcases h with h | h | h | h <;> subst h <;> rfl

/-- C17 (required questions, as amended): for a question of the form that
evaluates visible, is required, and whose answer is `undefined`, `null`, the
empty string or an empty sequence, the loop body records "<label> is
required" and writes nothing; the route never creates a record; when the loop
runs to its end the error is among the recorded ones and the route answers
with status 400; when the loop body throws on some question the route answers
with status 500; and the loop does run to its end when the evaluator returns
on every question, the submitted answers have string forms and the choices of
the Airtable fields are well formed. -/
theorem submitOutcome_required_unanswered
    (shouldShow : JsVal → AnswerMap → Except JsError Bool) (fieldMap : List (String × Json))
    (answers : AnswerMap) (qs : List Question) (q : Question) (hq : q ∈ qs)
    (hvis : shouldShow (.json q.conditionalRules) answers = .ok true)
    (hreq : q.required = true)
    (hans : getProperty answers q.questionKey = .undefined ∨
      getProperty answers q.questionKey = .json .null ∨
      getProperty answers q.questionKey = .json (.str "") ∨
      getProperty answers q.questionKey = .json (.arr [])) :
    (∀ st1, submitStep shouldShow fieldMap answers st1 q =
        .ok ⟨st1.airtableFields, st1.errors ++ [q.label ++ " is required"]⟩) ∧
      (∀ fields, submitOutcome shouldShow fieldMap answers qs ≠ .createRecord fields) ∧
      (∀ st, submitLoop shouldShow fieldMap answers qs ⟨[], []⟩ = .ok st →
        (q.label ++ " is required") ∈ st.errors ∧
          submitOutcome shouldShow fieldMap answers qs = .status400 st.errors) ∧
      (∀ e, submitLoop shouldShow fieldMap answers qs ⟨[], []⟩ = .error e →
        submitOutcome shouldShow fieldMap answers qs = .status500) ∧
      ((∀ q2 ∈ qs, ∃ b, shouldShow (.json q2.conditionalRules) answers = .ok b) →
        (∀ k v, answers.lookup k = some v → ∃ s, v.toStr = .ok s) →
        (∀ q2 ∈ qs,
          (optionalChain (optionalChain (getProperty fieldMap q2.airtableFieldId) "options")
            "choices").truthy = true →
          ∃ vs, validChoicesOf (optionalChain
            (optionalChain (getProperty fieldMap q2.airtableFieldId) "options") "choices") =
              .ok vs) →
        ∃ errors, submitOutcome shouldShow fieldMap answers qs = .status400 errors ∧
          (q.label ++ " is required") ∈ errors) := by
  have hstep := fun st1 => submitStep_required shouldShow fieldMap answers st1 q hvis hreq
    (isUnanswered_of_empty _ hans)
  have hmem : ∀ (l : List Question) (st0 st : SubmitState), q ∈ l →
      submitLoop shouldShow fieldMap answers l st0 = .ok st →
      (q.label ++ " is required") ∈ st.errors := by
    intro l
    induction l with
    | nil => intro st0 st hin; cases hin
    | cons x xs ih =>
      intro st0 st hin hrun
      simp only [submitLoop] at hrun
      cases hx : submitStep shouldShow fieldMap answers st0 x with
      | error e => rw [hx] at hrun; cases hrun
      | ok st1 =>
        rw [hx] at hrun
        rcases List.mem_cons.mp hin with heq | hin2
        · subst heq
          rw [hstep st0] at hx
          cases hx
          exact submitLoop_errors_mono shouldShow fieldMap answers xs _ st hrun _
            (List.mem_append_right _ (List.mem_singleton.mpr rfl))
        · exact ih st1 st hin2 hrun
  have hloop : ∀ st, submitLoop shouldShow fieldMap answers qs ⟨[], []⟩ = .ok st →
      (q.label ++ " is required") ∈ st.errors ∧
        submitOutcome shouldShow fieldMap answers qs = .status400 st.errors := by
    intro st hrun
    have hin := hmem qs ⟨[], []⟩ st hq hrun
    refine ⟨hin, ?_⟩
    unfold submitOutcome
    rw [hrun]
    have hpos : st.errors.length > 0 := List.length_pos_of_mem hin
    simp only [hpos, if_true]
  refine ⟨hstep, ?_, hloop, ?_, ?_⟩
  · intro fields hout
    cases hrun : submitLoop shouldShow fieldMap answers qs ⟨[], []⟩ with
    | error e =>
      unfold submitOutcome at hout
      rw [hrun] at hout
      cases hout
    | ok st =>
      rw [(hloop st hrun).2] at hout
      cases hout
  · intro e hrun
    unfold submitOutcome
    rw [hrun]
  · intro heval hprint hchoices
    obtain ⟨st, hrun⟩ := submitLoop_total shouldShow fieldMap answers qs ⟨[], []⟩ heval hprint
      hchoices
    exact ⟨st.errors, (hloop st hrun).2, (hloop st hrun).1⟩

/-- An instance of C17: a required question without rules is left unanswered
while another question is answered; the route answers with status 400 and the
single error. -/
theorem submitOutcome_required_unanswered_witness :
    (match
        submitOutcome (fun rules answers => .ok (backendShouldShowQuestion rules answers)) []
          [("q2", .str "Ada")]
          [⟨"q1", "fldA", "Email", "singleLineText", true, .null, .obj []⟩,
            ⟨"q2", "fldB", "Name", "singleLineText", false, .null, .obj []⟩] with
      | .status400 errors => errors
      | _ => []) = ["Email is required"] :=
  have h := (submitOutcome_required_unanswered
    (fun rules answers => .ok (backendShouldShowQuestion rules answers)) [] [("q2", .str "Ada")]
    [⟨"q1", "fldA", "Email", "singleLineText", true, .null, .obj []⟩,
      ⟨"q2", "fldB", "Name", "singleLineText", false, .null, .obj []⟩]
    ⟨"q1", "fldA", "Email", "singleLineText", true, .null, .obj []⟩
    (List.mem_cons_self _ _) rfl rfl (Or.inl rfl)).2.2.1
    ⟨[("fldB", .json (.str "Ada"))], ["Email is required"]⟩ rfl
  by rw [h.2]

/-- C17 (counterexample): the required question "Email" has no rules, so it
evaluates visible, and it is left unanswered; the text question "Name" is
answered with `{toString: "x"}`.  The loop body records "Email is required"
for the first, `String(answer)` throws on the second, and the route answers
with status 500, not 400; so it does whether the evaluator it calls is the
render-time code or the algorithm of section 4.1. -/
theorem submitOutcome_required_unanswered_status500 :
    shouldShowQuestion (.json .null) [("q2", .obj [("toString", .str "x")])] = .ok true ∧
      isUnanswered (getProperty [("q2", .obj [("toString", .str "x")])] "q1") = true ∧
      (match
          submitOutcome shouldShowQuestion [] [("q2", .obj [("toString", .str "x")])]
            [⟨"q1", "fldA", "Email", "singleLineText", true, .null, .obj []⟩,
              ⟨"q2", "fldB", "Name", "singleLineText", false, .null, .obj []⟩] with
        | .status500 => true
        | _ => false) = true ∧
      (match
          submitOutcome (fun rules answers => .ok (backendShouldShowQuestion rules answers)) []
            [("q2", .obj [("toString", .str "x")])]
            [⟨"q1", "fldA", "Email", "singleLineText", true, .null, .obj []⟩,
              ⟨"q2", "fldB", "Name", "singleLineText", false, .null, .obj []⟩] with
        | .status500 => true
        | _ => false) = true :=
  ⟨by decide, by decide, by decide, by decide⟩

/-! ## The submit route: the outbound record -/

/-- C24 (outbound-record invariant): when the question loop has run over the
form, every key of `airtableFields` is the `airtableFieldId` of a question of
the form that evaluates visible and whose answer is present; the record the
route sends is that `airtableFields`. -/
theorem submitLoop_record_keys (shouldShow : JsVal → AnswerMap → Except JsError Bool)
    (fieldMap : List (String × Json)) (answers : AnswerMap) (qs : List Question)
    (st : SubmitState) (hrun : submitLoop shouldShow fieldMap answers qs ⟨[], []⟩ = .ok st) :
    (∀ k ∈ st.airtableFields.map Prod.fst, ∃ q ∈ qs, q.airtableFieldId = k ∧
        shouldShow (.json q.conditionalRules) answers = .ok true ∧
        Present (getProperty answers q.questionKey)) ∧
      (∀ fields, submitOutcome shouldShow fieldMap answers qs = .createRecord fields →
        fields = st.airtableFields) := by
  constructor
  · intro k hk
    rcases submitLoop_keys shouldShow fieldMap answers qs ⟨[], []⟩ st hrun k hk with hin | hq
    · cases hin
    · exact hq
  · intro fields hout
    unfold submitOutcome at hout
    rw [hrun] at hout
    simp only at hout
    split at hout
    · cases hout
    · cases hout
      rfl

/-- An instance of C24: of three questions, one hidden and answered, one
visible and unanswered, one visible and answered, only the last is written;
the key `fldC` of the record is the field of a visible question with a
present answer. -/
theorem submitLoop_record_keys_witness :
    ∃ q ∈ ([⟨"q1", "fldA", "Details", "singleLineText", false,
            .obj [("logic", .str "AND"), ("conditions", .arr [mkCondition "q3" "equals" (.str "x")])],
            .obj []⟩,
          ⟨"q2", "fldB", "Email", "singleLineText", false, .null, .obj []⟩,
          ⟨"q3", "fldC", "Name", "singleLineText", false, .null, .obj []⟩] : List Question),
      q.airtableFieldId = "fldC" ∧
        (Except.ok (backendShouldShowQuestion (.json q.conditionalRules)
          [("q1", .str "secret"), ("q3", .str "Ada")]) : Except JsError Bool) = .ok true ∧
        Present (getProperty [("q1", .str "secret"), ("q3", .str "Ada")] q.questionKey) :=
  (submitLoop_record_keys (fun rules answers => .ok (backendShouldShowQuestion rules answers)) []
    [("q1", .str "secret"), ("q3", .str "Ada")]
    [⟨"q1", "fldA", "Details", "singleLineText", false,
        .obj [("logic", .str "AND"), ("conditions", .arr [mkCondition "q3" "equals" (.str "x")])],
        .obj []⟩,
      ⟨"q2", "fldB", "Email", "singleLineText", false, .null, .obj []⟩,
      ⟨"q3", "fldC", "Name", "singleLineText", false, .null, .obj []⟩]
    ⟨[("fldC", .json (.str "Ada"))], []⟩ rfl).1 "fldC" (List.mem_cons_self _ _)

/-! ## More on the logic field -/

/-- C25 (logic other than "OR"): for every conditions value, every answers map
and every logic value `L` other than the string "OR", the rule set with logic
`L` evaluates to the same result as the one with logic "AND". -/
theorem shouldShowQuestion_logic_ne_OR (L conditions : Json) (a : AnswerMap)
    (hL : L ≠ .str "OR") :
    shouldShowQuestion (mkRules (some L) conditions) a =
      shouldShowQuestion (mkRules (some (.str "AND")) conditions) a := by
  cases conditions with
  | arr cs =>
    rw [shouldShowQuestion_mkRules, shouldShowQuestion_mkRules]
    have h1 : logicIsOr (some L) = false := by
      simp only [logicIsOr]
      rw [strictEqStr_eq_false_iff]
      intro h
      cases h
      exact hL rfl
    have h2 : logicIsOr (some (.str "AND")) = false := by decide
    rw [h1, h2]
  | null => rfl
  | bool b => cases b <;> rfl
  | num n =>
    simp [shouldShowQuestion, mkRules, readField, getProperty, List.lookup, truthy_obj,
      JsVal.asArray]
  | str s =>
    simp [shouldShowQuestion, mkRules, readField, getProperty, List.lookup, truthy_obj,
      JsVal.asArray]
  | obj props =>
    simp [shouldShowQuestion, mkRules, readField, getProperty, List.lookup, truthy_obj,
      JsVal.asArray]

/-- Instances of C25: the logic values "or", "XOR" and the empty string on the
conditions and answers of the OR test, where "OR" gives true and "AND" false. -/
theorem shouldShowQuestion_logic_ne_OR_witness :
    shouldShowQuestion
        (mkRules (some (.str "or"))
          (.arr [mkCondition "q1" "equals" (.str "yes"), mkCondition "q2" "equals" (.str "no")]))
        [("q1", .str "yes"), ("q2", .str "maybe")] = .ok false ∧
      shouldShowQuestion
        (mkRules (some (.str "XOR"))
          (.arr [mkCondition "q1" "equals" (.str "yes"), mkCondition "q2" "equals" (.str "no")]))
        [("q1", .str "yes"), ("q2", .str "maybe")] = .ok false ∧
      shouldShowQuestion
        (mkRules (some (.str ""))
          (.arr [mkCondition "q1" "equals" (.str "yes"), mkCondition "q2" "equals" (.str "no")]))
        [("q1", .str "yes"), ("q2", .str "maybe")] = .ok false :=
  ⟨(shouldShowQuestion_logic_ne_OR (.str "or") _ _ (by simp)).trans (by decide),
   (shouldShowQuestion_logic_ne_OR (.str "XOR") _ _ (by simp)).trans (by decide),
   (shouldShowQuestion_logic_ne_OR (.str "") _ _ (by simp)).trans (by decide)⟩

/-- C26 (AND is at least as strict as OR): for every conditions sequence,
empty or not, and every answers map, when the rule set with logic "AND"
evaluates to true so does the rule set with the same conditions and logic
"OR". -/
theorem shouldShowQuestion_and_imp_or (cs : List Json) (a : AnswerMap)
    (h : shouldShowQuestion (mkRules (some (.str "AND")) (.arr cs)) a = .ok true) :
    shouldShowQuestion (mkRules (some (.str "OR")) (.arr cs)) a = .ok true := by
  cases cs with
  | nil => rw [shouldShowQuestion_mkRules]; rfl
  | cons c cs =>
    have hAnd : logicIsOr (some (.str "AND")) = false := by decide
    have hOr : logicIsOr (some (.str "OR")) = true := by decide
    rw [shouldShowQuestion_mkRules_ok_iff _ _ _ _ (List.cons_ne_nil _ _)] at h ⊢
    simp only [hAnd, hOr, Bool.false_eq_true, if_false, if_true, true_iff] at h ⊢
    exact ⟨h.1, c, List.mem_cons_self _ _, h.2 c (List.mem_cons_self _ _)⟩

/-- An instance of C26, on the conditions and answers of the AND test. -/
theorem shouldShowQuestion_and_imp_or_witness :
    shouldShowQuestion
        (mkRules (some (.str "OR"))
          (.arr [mkCondition "q1" "equals" (.str "yes"), mkCondition "q2" "equals" (.str "no")]))
        [("q1", .str "yes"), ("q2", .str "no")] = .ok true :=
  shouldShowQuestion_and_imp_or _ _ (by decide)

/-! ## Answers the rule set does not refer to -/

theorem getProperty_congr (a1 a2 : AnswerMap) (key : String)
    (h : a1.lookup key = a2.lookup key) : getProperty a1 key = getProperty a2 key := by
  unfold getProperty
  rw [h]

/-- The result of a condition depends on the answers only through the entry
of its key. -/
theorem conditionResult_congr (a1 a2 : AnswerMap) (c : Json)
    (h : ∀ qk key, readField (.json c) "questionKey" = .ok qk → qk.toStr = .ok key →
      a1.lookup key = a2.lookup key) :
    conditionResult a1 c = conditionResult a2 c := by
  unfold conditionResult
  cases hq : readField (.json c) "questionKey" with
  | error e => rfl
  | ok qk =>
    cases readField (.json c) "operator" with
    | error e => rfl
    | ok op =>
      cases readField (.json c) "value" with
      | error e => rfl
      | ok value =>
        simp only
        cases hk : qk.toStr with
        | error e => rfl
        | ok key =>
          simp only
          rw [getProperty_congr a1 a2 key (h qk key hq hk)]

theorem mapConditions_congr (a1 a2 : AnswerMap) (cs : List Json)
    (h : ∀ c ∈ cs, ∀ qk key, readField (.json c) "questionKey" = .ok qk → qk.toStr = .ok key →
      a1.lookup key = a2.lookup key) :
    mapConditions a1 cs = mapConditions a2 cs := by
  induction cs with
  | nil => rfl
  | cons c cs ih =>
    simp only [mapConditions]
    rw [conditionResult_congr a1 a2 c (h c (List.mem_cons_self _ _)),
      ih (fun c2 hc2 => h c2 (List.mem_cons_of_mem _ hc2))]

/-- C27 (unreferenced answers): for every rules value and every two answers
maps that have the same entry under the key of every condition of the rule
set, the evaluator gives the same result on both maps. -/
theorem shouldShowQuestion_congr (rules : JsVal) (a1 a2 : AnswerMap)
    (h : ∀ cs, readField rules "conditions" = .ok (.json (.arr cs)) → ∀ c ∈ cs, ∀ qk key,
      readField (.json c) "questionKey" = .ok qk → qk.toStr = .ok key →
        a1.lookup key = a2.lookup key) :
    shouldShowQuestion rules a1 = shouldShowQuestion rules a2 := by
  unfold shouldShowQuestion
  by_cases ht : rules.truthy = true
  · simp only [ht, Bool.not_true, Bool.false_eq_true, if_false]
    cases hc : readField rules "conditions" with
    | error e => rfl
    | ok conditions =>
      simp only
      cases harr : conditions.asArray with
      | none => rfl
      | some cs =>
        have hcs := asArray_eq_some conditions cs harr
        subst hcs
        simp only
        rw [mapConditions_congr a1 a2 cs (h cs hc)]
  · simp [ht]

/-- An instance of C27: the rule set refers to `q1` only, and the two answers
maps differ in `q2` and `q3`. -/
theorem shouldShowQuestion_congr_witness :
    shouldShowQuestion (mkRules (some (.str "AND")) (.arr [mkCondition "q1" "equals" (.str "yes")]))
        [("q1", .str "yes"), ("q2", .str "a")] =
      shouldShowQuestion
        (mkRules (some (.str "AND")) (.arr [mkCondition "q1" "equals" (.str "yes")]))
        [("q3", .num 7), ("q1", .str "yes")] :=
  shouldShowQuestion_congr _ _ _ (fun cs hcs c hc qk key hq hk => by
    have hcs2 : cs = [mkCondition "q1" "equals" (.str "yes")] := by
      simp only [mkRules, readField, getProperty, List.lookup] at hcs
      simpa using hcs.symm
    subst hcs2
    rw [List.mem_singleton] at hc
    subst hc
    rw [readField_mkCondition_questionKey] at hq
    cases hq
    cases hk
    rfl)

/-! ## Empty sequences -/

/-- C28 (empty-sequence answer): when the answers map holds an empty sequence
under the key of a `notEquals` condition whose value is a non-empty string,
the result of the condition is true; the required check of the submit route
takes the same answer for a missing one and records "<label> is required" for
a visible required question with that key. -/
theorem conditionResult_notEquals_empty_array (a : AnswerMap) (key v : String)
    (hl : a.lookup key = some (.arr [])) (hv : v ≠ "") :
    conditionResult a (mkCondition key "notEquals" (.str v)) = .ok true ∧
      isUnanswered (getProperty a key) = true ∧
      ∀ (shouldShow : JsVal → AnswerMap → Except JsError Bool) (fieldMap : List (String × Json))
        (st : SubmitState) (q : Question), q.questionKey = key →
        shouldShow (.json q.conditionalRules) a = .ok true → q.required = true →
        submitStep shouldShow fieldMap a st q =
          .ok ⟨st.airtableFields, st.errors ++ [q.label ++ " is required"]⟩ := by
  have hg : getProperty a key = .json (.arr []) := by
    unfold getProperty
    rw [hl]
  refine ⟨?_, ?_, ?_⟩
  · have hp : Present (getProperty a key) := by
      rw [hg]
      refine ⟨?_, ?_, ?_⟩ <;> simp
    rw [conditionResult_of_present a key "notEquals" (.str v) hp, hg]
    have h2 : (JsVal.json (.str "notEquals")).strictEqStr "equals" = false := by decide
    have h3 : (JsVal.json (.str "notEquals")).strictEqStr "notEquals" = true := by decide
    have hs : (JsVal.json (.arr [])).toStr = .ok "" := rfl
    have hvs : (JsVal.json (.str v)).toStr = .ok v := rfl
    simp only [applyOperator, h2, h3, if_true, Bool.false_eq_true, if_false, hs, hvs,
      Except.ok.injEq]
    have hne : ("" : String) ≠ v := fun h => hv h.symm
    simp [hne]
  · rw [hg]
    rfl
  · intro shouldShow fieldMap st q hkey hvis hreq
    apply submitStep_required shouldShow fieldMap a st q hvis hreq
    rw [hkey, hg]
    rfl

/-- An instance of C28: an unchecked multi-select under `q1`. -/
theorem conditionResult_notEquals_empty_array_witness :
    conditionResult [("q1", .arr [])] (mkCondition "q1" "notEquals" (.str "red")) = .ok true ∧
      isUnanswered (getProperty [("q1", .arr [])] "q1") = true :=
  ⟨(conditionResult_notEquals_empty_array [("q1", .arr [])] "q1" "red" rfl (by decide)).1,
   (conditionResult_notEquals_empty_array [("q1", .arr [])] "q1" "red" rfl (by decide)).2.1⟩

/-! ## The submit route: select questions -/

theorem choiceName_total (c : Json) (hc : c ≠ .null) : ∃ n, choiceName c = .ok n := by
  unfold choiceName
  cases c with
  | null => exact absurd rfl hc
  | obj props =>
    simp only [readField]
    split <;> exact ⟨_, rfl⟩
  | bool b => exact ⟨_, rfl⟩
  | num n => exact ⟨_, rfl⟩
  | str t => exact ⟨_, rfl⟩
  | arr items => exact ⟨_, rfl⟩

/-- The call `choices.map(c => c.name || c)` returns on a sequence without
`null` entries. -/
theorem mapChoiceNames_total (cs : List Json) (hnn : ∀ c ∈ cs, c ≠ .null) :
    ∃ names, mapChoiceNames cs = .ok names := by
  induction cs with
  | nil => exact ⟨[], rfl⟩
  | cons c cs ih =>
    obtain ⟨n, hn⟩ := choiceName_total c (hnn c (List.mem_cons_self _ _))
    obtain ⟨ns, hns⟩ := ih (fun c2 hc2 => hnn c2 (List.mem_cons_of_mem _ hc2))
    exact ⟨n :: ns, by simp only [mapChoiceNames, hn, hns]⟩

/-- The valid choices are the names of the listed choices. -/
theorem mapChoiceNames_mem (cs : List Json) (names : List JsVal)
    (h : mapChoiceNames cs = .ok names) (n : JsVal) :
    n ∈ names ↔ ∃ c ∈ cs, choiceName c = .ok n := by
  induction cs generalizing names with
  | nil =>
    simp only [mapChoiceNames, Except.ok.injEq] at h
    subst h
    simp
  | cons c cs ih =>
    simp only [mapChoiceNames] at h
    cases hc : choiceName c with
    | error e => rw [hc] at h; cases h
    | ok n0 =>
      rw [hc] at h
      cases hr : mapChoiceNames cs with
      | error e => rw [hr] at h; cases h
      | ok ns =>
        rw [hr] at h
        simp only [Except.ok.injEq] at h
        subst h
        simp only [List.mem_cons, exists_eq_or_imp, ih ns hr, hc, Except.ok.injEq]
        constructor
        · rintro (h1 | h2)
          · exact Or.inl h1.symm
          · exact Or.inr h2
        · rintro (h1 | h2)
          · exact Or.inl h1.symm
          · exact Or.inr h2

theorem any_sameValueZero_iff (names : List JsVal) (x : JsVal) :
    names.any (fun c => sameValueZero c x) = true ↔ ∃ n ∈ names, sameValueZero n x = true := by
  simp [List.any_eq_true]

/-- On strings `SameValueZero` is equality. -/
theorem sameValueZero_str (n : JsVal) (t : String) :
    sameValueZero n (.json (.str t)) = true ↔ n = .json (.str t) := by
  cases n with
  | json j =>
    cases j with
    | str u => simp [sameValueZero]
    | _ => simp [sameValueZero]
  | _ => simp [sameValueZero]

/-- A present answer that is not an empty sequence under a required question
passes the required check. -/
theorem required_check_passes (q : Question) (answer : JsVal) (hpres : Present answer)
    (hreq : ¬ (q.required = true ∧ answer = .json (.arr []))) :
    (q.required && isUnanswered answer) = false := by
  have hm := (isMissing_eq_false_iff answer).mpr hpres
  by_cases hr : q.required = true
  · have hne : answer ≠ .json (.arr []) := fun h => hreq ⟨hr, h⟩
    simp only [hr, Bool.true_and, isUnanswered, hm, Bool.false_or]
    cases harr : answer.asArray with
    | none => rfl
    | some items =>
      have hitems := asArray_eq_some answer items harr
      cases items with
      | nil => exact absurd hitems hne
      | cons x xs => rfl
  · simp [hr]

/-- The loop body on a visible question whose answer passes the required
check: the type switch. -/
theorem submitStep_validate (shouldShow : JsVal → AnswerMap → Except JsError Bool)
    (fieldMap : List (String × Json)) (answers : AnswerMap) (st : SubmitState) (q : Question)
    (hvis : shouldShow (.json q.conditionalRules) answers = .ok true)
    (hpres : Present (getProperty answers q.questionKey))
    (hreq : ¬ (q.required = true ∧ getProperty answers q.questionKey = .json (.arr []))) :
    submitStep shouldShow fieldMap answers st q =
      validateAnswer fieldMap q (getProperty answers q.questionKey) st := by
  unfold submitStep
  simp only [hvis, Bool.not_true, Bool.false_eq_true, if_false,
    required_check_passes q _ hpres hreq, (isMissing_eq_false_iff _).mpr hpres, Bool.not_false,
    if_true]

/-- C21 (single-select, as amended): for a visible singleSelect question whose
answer is present, and is not an empty sequence when the question is
required, and whose Airtable field lists choices, the loop body assigns the
answer under the question's `airtableFieldId` when the answer equals the name
of one of the choices, and otherwise records "<label>: invalid choice" and
assigns nothing. -/
theorem submitStep_singleSelect (shouldShow : JsVal → AnswerMap → Except JsError Bool)
    (fieldMap : List (String × Json)) (answers : AnswerMap) (st : SubmitState) (q : Question)
    (cs : List Json) (htype : q.type = "singleSelect")
    (hvis : shouldShow (.json q.conditionalRules) answers = .ok true)
    (hpres : Present (getProperty answers q.questionKey))
    (hreq : ¬ (q.required = true ∧ getProperty answers q.questionKey = .json (.arr [])))
    (hchoices : optionalChain (optionalChain (getProperty fieldMap q.airtableFieldId) "options")
      "choices" = .json (.arr cs))
    (hnn : ∀ c ∈ cs, c ≠ .null) :
    ((∃ c ∈ cs, ∃ n, choiceName c = .ok n ∧
          sameValueZero n (getProperty answers q.questionKey) = true) →
        submitStep shouldShow fieldMap answers st q =
          .ok ⟨setField st.airtableFields q.airtableFieldId (getProperty answers q.questionKey),
            st.errors⟩) ∧
      ((¬ ∃ c ∈ cs, ∃ n, choiceName c = .ok n ∧
          sameValueZero n (getProperty answers q.questionKey) = true) →
        submitStep shouldShow fieldMap answers st q =
          .ok ⟨st.airtableFields, st.errors ++ [q.label ++ ": invalid choice"]⟩) := by
  obtain ⟨names, hnames⟩ := mapChoiceNames_total cs hnn
  have hstep := submitStep_validate shouldShow fieldMap answers st q hvis hpres hreq
  have hval : validateAnswer fieldMap q (getProperty answers q.questionKey) st =
      if !names.any (fun c => sameValueZero c (getProperty answers q.questionKey)) then
        .ok (st.pushError (q.label ++ ": invalid choice"))
      else .ok (st.write q.airtableFieldId (getProperty answers q.questionKey)) := by
    unfold validateAnswer
    simp only [htype, hchoices, beq_self_eq_true, if_true, truthy_arr, validChoicesOf,
      JsVal.asArray, hnames]
  have hiff : names.any (fun c => sameValueZero c (getProperty answers q.questionKey)) = true ↔
      ∃ c ∈ cs, ∃ n, choiceName c = .ok n ∧
        sameValueZero n (getProperty answers q.questionKey) = true := by
    rw [any_sameValueZero_iff]
    constructor
    · rintro ⟨n, hn, hsv⟩
      obtain ⟨c, hc, hcn⟩ := (mapChoiceNames_mem cs names hnames n).mp hn
      exact ⟨c, hc, n, hcn, hsv⟩
    · rintro ⟨c, hc, n, hcn, hsv⟩
      exact ⟨n, (mapChoiceNames_mem cs names hnames n).mpr ⟨c, hc, hcn⟩, hsv⟩
  rw [hstep, hval]
  constructor
  · intro hex
    simp only [hiff.mpr hex, Bool.not_true, Bool.false_eq_true, if_false]
    rfl
  · intro hnex
    have hf : names.any (fun c => sameValueZero c (getProperty answers q.questionKey)) = false := by
      cases hany : names.any (fun c => sameValueZero c (getProperty answers q.questionKey)) with
      | false => rfl
      | true => exact absurd (hiff.mp hany) hnex
    simp only [hf, Bool.not_false, if_true]
    rfl

/-- Instances of C21: with the choices "red" and "blue", the answer "red" is
assigned and the answer "green" is refused. -/
theorem submitStep_singleSelect_witness :
    submitStep (fun rules answers => .ok (backendShouldShowQuestion rules answers))
        [("fldB", .obj [("options", .obj [("choices",
          .arr [.obj [("name", .str "red")], .obj [("name", .str "blue")]])])])]
        [("q1", .str "red")] ⟨[], []⟩
        ⟨"q1", "fldB", "Color", "singleSelect", false, .null, .obj []⟩ =
          .ok ⟨[("fldB", .json (.str "red"))], []⟩ ∧
      submitStep (fun rules answers => .ok (backendShouldShowQuestion rules answers))
        [("fldB", .obj [("options", .obj [("choices",
          .arr [.obj [("name", .str "red")], .obj [("name", .str "blue")]])])])]
        [("q1", .str "green")] ⟨[], []⟩
        ⟨"q1", "fldB", "Color", "singleSelect", false, .null, .obj []⟩ =
          .ok ⟨[], ["Color: invalid choice"]⟩ :=
  ⟨(submitStep_singleSelect (fun rules answers => .ok (backendShouldShowQuestion rules answers))
      [("fldB", .obj [("options", .obj [("choices",
          .arr [.obj [("name", .str "red")], .obj [("name", .str "blue")]])])])]
      [("q1", .str "red")] ⟨[], []⟩
      ⟨"q1", "fldB", "Color", "singleSelect", false, .null, .obj []⟩
      [.obj [("name", .str "red")], .obj [("name", .str "blue")]] rfl rfl
      ⟨by simp [getProperty, List.lookup], by simp [getProperty, List.lookup],
        by simp [getProperty, List.lookup]⟩
      (by simp) rfl (by simp)).1
      ⟨.obj [("name", .str "red")], List.mem_cons_self _ _, .json (.str "red"), rfl, rfl⟩,
   (submitStep_singleSelect (fun rules answers => .ok (backendShouldShowQuestion rules answers))
      [("fldB", .obj [("options", .obj [("choices",
          .arr [.obj [("name", .str "red")], .obj [("name", .str "blue")]])])])]
      [("q1", .str "green")] ⟨[], []⟩
      ⟨"q1", "fldB", "Color", "singleSelect", false, .null, .obj []⟩
      [.obj [("name", .str "red")], .obj [("name", .str "blue")]] rfl rfl
      ⟨by simp [getProperty, List.lookup], by simp [getProperty, List.lookup],
        by simp [getProperty, List.lookup]⟩
      (by simp) rfl (by simp)).2
      (by
        rintro ⟨c, hc, n, hn, hsv⟩
        have hg : getProperty [("q1", Json.str "green")] "q1" = .json (.str "green") := rfl
        have hsv2 : sameValueZero n (.json (.str "green")) = true := hg ▸ hsv
        rw [sameValueZero_str] at hsv2
        subst hsv2
        simp only [List.mem_cons, List.mem_singleton, List.not_mem_nil, or_false] at hc
        rcases hc with rfl | rfl
        · have h2 : choiceName (.obj [("name", .str "red")]) = .ok (.json (.str "red")) := rfl
          rw [h2] at hn
          simp at hn
        · have h2 : choiceName (.obj [("name", .str "blue")]) = .ok (.json (.str "blue")) := rfl
          rw [h2] at hn
          simp at hn)⟩

/-- C21 (counterexample): a required singleSelect question without rules,
answered with an empty sequence.  The answer is present and is the name of no
choice, yet the error recorded is "Color is required", not "Color: invalid
choice". -/
theorem submitOutcome_singleSelect_empty_sequence :
    Present (getProperty [("q1", .arr [])] "q1") ∧
      (match
          submitOutcome (fun rules answers => .ok (backendShouldShowQuestion rules answers))
            [("fldB", .obj [("options", .obj [("choices",
              .arr [.obj [("name", .str "red")], .obj [("name", .str "blue")]])])])]
            [("q1", .arr [])]
            [⟨"q1", "fldB", "Color", "singleSelect", true, .null, .obj []⟩] with
        | .status400 errors => errors
        | _ => []) = ["Color is required"] :=
  ⟨⟨by simp [getProperty, List.lookup], by simp [getProperty, List.lookup],
      by simp [getProperty, List.lookup]⟩, by decide⟩

/-- C22 (multi-select, as amended): for a visible multipleSelects question
whose answer is present, and is not an empty sequence when the question is
required: an answer that is not a sequence is refused with "<label>: must be
an array"; a sequence answer, when the Airtable field lists choices with the
names `names`, is assigned under the question's `airtableFieldId` when every
element is one of the names; otherwise, when the elements that are none of
the names have string forms, the error that lists exactly those elements is
recorded and nothing is assigned, and when one of them has no string form the
loop body throws. -/
theorem submitStep_multipleSelects (shouldShow : JsVal → AnswerMap → Except JsError Bool)
    (fieldMap : List (String × Json)) (answers : AnswerMap) (st : SubmitState) (q : Question)
    (htype : q.type = "multipleSelects")
    (hvis : shouldShow (.json q.conditionalRules) answers = .ok true)
    (hpres : Present (getProperty answers q.questionKey))
    (hreq : ¬ (q.required = true ∧ getProperty answers q.questionKey = .json (.arr []))) :
    ((∀ items, getProperty answers q.questionKey ≠ .json (.arr items)) →
        submitStep shouldShow fieldMap answers st q =
          .ok ⟨st.airtableFields, st.errors ++ [q.label ++ ": must be an array"]⟩) ∧
      (∀ items cs names, getProperty answers q.questionKey = .json (.arr items) →
        optionalChain (optionalChain (getProperty fieldMap q.airtableFieldId) "options")
          "choices" = .json (.arr cs) →
        mapChoiceNames cs = .ok names →
        (∀ n, n ∈ names ↔ ∃ c ∈ cs, choiceName c = .ok n) ∧
          ((∀ x ∈ items, ∃ n ∈ names, sameValueZero n (.json x) = true) →
            submitStep shouldShow fieldMap answers st q =
              .ok ⟨setField st.airtableFields q.airtableFieldId (.json (.arr items)),
                st.errors⟩) ∧
          ((¬ ∀ x ∈ items, ∃ n ∈ names, sameValueZero n (.json x) = true) →
            ∀ parts,
              Json.joinParts (items.filter
                (fun x => !names.any (fun c => sameValueZero c (.json x)))) = .ok parts →
              submitStep shouldShow fieldMap answers st q =
                .ok ⟨st.airtableFields,
                  st.errors ++ [q.label ++ ": invalid choices: " ++ joinCommaSpace parts]⟩) ∧
          ((¬ ∀ x ∈ items, ∃ n ∈ names, sameValueZero n (.json x) = true) →
            ∀ e,
              Json.joinParts (items.filter
                (fun x => !names.any (fun c => sameValueZero c (.json x)))) = .error e →
              submitStep shouldShow fieldMap answers st q = .error e)) := by
  have hstep := submitStep_validate shouldShow fieldMap answers st q hvis hpres hreq
  have hne : (q.type == "singleSelect") = false := by
    rw [htype]
    decide
  constructor
  · intro hna
    rw [hstep]
    unfold validateAnswer
    simp only [hne, htype, beq_self_eq_true, if_true, Bool.false_eq_true, if_false,
      asArray_eq_none _ hna]
    rfl
  · intro items cs names hitems hchoices hnames
    have hpos : (¬ ∀ x ∈ items, ∃ n ∈ names, sameValueZero n (.json x) = true) →
        (items.filter
          (fun x => !names.any (fun c => sameValueZero c (.json x)))).length > 0 := by
      intro hnall
      apply List.length_pos_of_ne_nil
      intro hnil
      apply hnall
      intro x hx
      rw [List.filter_eq_nil_iff] at hnil
      have := hnil x hx
      apply (any_sameValueZero_iff names (.json x)).mp
      simpa using this
    refine ⟨mapChoiceNames_mem cs names hnames, ?_, ?_, ?_⟩
    · intro hall
      have hfil : items.filter (fun x => !names.any (fun c => sameValueZero c (.json x))) = [] := by
        rw [List.filter_eq_nil_iff]
        intro x hx
        have := (any_sameValueZero_iff names (.json x)).mpr (hall x hx)
        simp [this]
      rw [hstep, hitems]
      unfold validateAnswer
      simp only [hne, htype, beq_self_eq_true, if_true, Bool.false_eq_true, if_false,
        JsVal.asArray, hchoices, truthy_arr, validChoicesOf, hnames, hfil, List.length_nil,
        gt_iff_lt, lt_self_iff_false]
      rfl
    · intro hnall parts hparts
      have hpos := hpos hnall
      rw [hstep, hitems]
      unfold validateAnswer
      simp only [hne, htype, beq_self_eq_true, if_true, Bool.false_eq_true, if_false,
        JsVal.asArray, hchoices, truthy_arr, validChoicesOf, hnames, hpos, hparts]
      rfl
    · intro hnall e hparts
      have hpos := hpos hnall
      rw [hstep, hitems]
      unfold validateAnswer
      simp only [hne, htype, beq_self_eq_true, if_true, Bool.false_eq_true, if_false,
        JsVal.asArray, hchoices, truthy_arr, validChoicesOf, hnames, hpos, hparts]
      rfl

/-- Instances of C22: with the choices "red" and "blue", the answer "red" is
not a sequence, the answer ["red", "blue"] is assigned, and the answer
["red", "green", "pink"] is refused with the list "green, pink". -/
theorem submitStep_multipleSelects_witness :
    submitStep (fun rules answers => .ok (backendShouldShowQuestion rules answers))
        [("fldT", .obj [("options", .obj [("choices",
          .arr [.obj [("name", .str "red")], .obj [("name", .str "blue")]])])])]
        [("q1", .str "red")] ⟨[], []⟩ ⟨"q1", "fldT", "Tags", "multipleSelects", false, .null, .obj []⟩ =
          .ok ⟨[], ["Tags: must be an array"]⟩ ∧
      submitStep (fun rules answers => .ok (backendShouldShowQuestion rules answers))
        [("fldT", .obj [("options", .obj [("choices",
          .arr [.obj [("name", .str "red")], .obj [("name", .str "blue")]])])])]
        [("q1", .arr [.str "red", .str "blue"])] ⟨[], []⟩ ⟨"q1", "fldT", "Tags", "multipleSelects", false, .null, .obj []⟩ =
          .ok ⟨[("fldT", .json (.arr [.str "red", .str "blue"]))], []⟩ ∧
      submitStep (fun rules answers => .ok (backendShouldShowQuestion rules answers))
        [("fldT", .obj [("options", .obj [("choices",
          .arr [.obj [("name", .str "red")], .obj [("name", .str "blue")]])])])]
        [("q1", .arr [.str "red", .str "green", .str "pink"])] ⟨[], []⟩ ⟨"q1", "fldT", "Tags", "multipleSelects", false, .null, .obj []⟩ =
          .ok ⟨[], ["Tags: invalid choices: green, pink"]⟩ :=
  ⟨(submitStep_multipleSelects (fun rules answers => .ok (backendShouldShowQuestion rules answers))
      [("fldT", .obj [("options", .obj [("choices",
          .arr [.obj [("name", .str "red")], .obj [("name", .str "blue")]])])])]
      [("q1", .str "red")] ⟨[], []⟩ ⟨"q1", "fldT", "Tags", "multipleSelects", false, .null, .obj []⟩ rfl rfl
      ⟨by simp [getProperty, List.lookup], by simp [getProperty, List.lookup],
        by simp [getProperty, List.lookup]⟩
      (by simp)).1 (by
        intro items h
        have hg : getProperty [("q1", Json.str "red")] "q1" = .json (.str "red") := rfl
        have h2 : JsVal.json (.str "red") = .json (.arr items) := hg ▸ h
        cases h2),
   ((submitStep_multipleSelects (fun rules answers => .ok (backendShouldShowQuestion rules answers))
      [("fldT", .obj [("options", .obj [("choices",
          .arr [.obj [("name", .str "red")], .obj [("name", .str "blue")]])])])]
      [("q1", .arr [.str "red", .str "blue"])] ⟨[], []⟩ ⟨"q1", "fldT", "Tags", "multipleSelects", false, .null, .obj []⟩ rfl rfl
      ⟨by simp [getProperty, List.lookup], by simp [getProperty, List.lookup],
        by simp [getProperty, List.lookup]⟩
      (by simp)).2 [.str "red", .str "blue"]
      [.obj [("name", .str "red")], .obj [("name", .str "blue")]]
      [.json (.str "red"), .json (.str "blue")] rfl rfl rfl).2.1 (by
        intro x hx
        simp only [List.mem_cons, List.mem_singleton, List.not_mem_nil, or_false] at hx
        rcases hx with rfl | rfl
        · exact ⟨.json (.str "red"), List.mem_cons_self _ _, rfl⟩
        · exact ⟨.json (.str "blue"), List.mem_cons_of_mem _ (List.mem_cons_self _ _), rfl⟩),
   ((submitStep_multipleSelects (fun rules answers => .ok (backendShouldShowQuestion rules answers))
      [("fldT", .obj [("options", .obj [("choices",
          .arr [.obj [("name", .str "red")], .obj [("name", .str "blue")]])])])]
      [("q1", .arr [.str "red", .str "green", .str "pink"])] ⟨[], []⟩ ⟨"q1", "fldT", "Tags", "multipleSelects", false, .null, .obj []⟩ rfl rfl
      ⟨by simp [getProperty, List.lookup], by simp [getProperty, List.lookup],
        by simp [getProperty, List.lookup]⟩
      (by simp)).2 [.str "red", .str "green", .str "pink"]
      [.obj [("name", .str "red")], .obj [("name", .str "blue")]]
      [.json (.str "red"), .json (.str "blue")] rfl rfl rfl).2.2.1 (by
        intro hall
        obtain ⟨n, hn, hsv⟩ := hall (.str "green")
          (List.mem_cons_of_mem _ (List.mem_cons_self _ _))
        rw [sameValueZero_str] at hsv
        subst hsv
        simp at hn) ["green", "pink"] rfl⟩

/-- C22 (counterexample): a required multipleSelects question without rules,
answered with the empty sequence.  The answer is present and every element of
it is the name of a choice, yet nothing is assigned and "Tags is required" is
recorded.  And the same question, not required, answered with the sequence
`[{toString: "x"}]`: its element is the name of no choice, yet no error that
lists it is recorded; `invalid.join(', ')` throws and the route answers with
status 500, whether the evaluator it calls is the algorithm of section 4.1 or
the render-time code. -/
theorem submitOutcome_multipleSelects_empty_sequence :
    Present (getProperty [("q1", .arr [])] "q1") ∧
      (match
          submitOutcome (fun rules answers => .ok (backendShouldShowQuestion rules answers))
            [("fldT", .obj [("options", .obj [("choices",
          .arr [.obj [("name", .str "red")], .obj [("name", .str "blue")]])])])]
            [("q1", .arr [])]
            [⟨"q1", "fldT", "Tags", "multipleSelects", true, .null, .obj []⟩] with
        | .status400 errors => errors
        | _ => []) = ["Tags is required"] ∧
      Present (getProperty [("q1", .arr [.obj [("toString", .str "x")]])] "q1") ∧
      [JsVal.json (.str "red"), JsVal.json (.str "blue")].any
        (fun c => sameValueZero c (.json (.obj [("toString", .str "x")]))) = false ∧
      (match
          submitOutcome (fun rules answers => .ok (backendShouldShowQuestion rules answers))
            [("fldT", .obj [("options", .obj [("choices",
          .arr [.obj [("name", .str "red")], .obj [("name", .str "blue")]])])])]
            [("q1", .arr [.obj [("toString", .str "x")]])]
            [⟨"q1", "fldT", "Tags", "multipleSelects", false, .null, .obj []⟩] with
        | .status500 => true
        | _ => false) = true ∧
      (match
          submitOutcome shouldShowQuestion
            [("fldT", .obj [("options", .obj [("choices",
          .arr [.obj [("name", .str "red")], .obj [("name", .str "blue")]])])])]
            [("q1", .arr [.obj [("toString", .str "x")]])]
            [⟨"q1", "fldT", "Tags", "multipleSelects", false, .null, .obj []⟩] with
        | .status500 => true
        | _ => false) = true :=
  ⟨⟨by simp [getProperty, List.lookup], by simp [getProperty, List.lookup],
      by simp [getProperty, List.lookup]⟩, by decide,
    ⟨by simp [getProperty, List.lookup], by simp [getProperty, List.lookup],
      by simp [getProperty, List.lookup]⟩, by decide, by decide, by decide⟩

/-! ## Client-side and server-side required checks -/

/-- The callback of `validate` assigns its message exactly under the flagging
condition. -/
theorem validateQuestion_eq (answers : AnswerMap) (ne : List (String × JsVal)) (q : Question) :
    validateQuestion answers ne q =
      match clientRequiredError answers q with
      | .error e => .error e
      | .ok true => .ok (setField ne q.questionKey (.json (.str "This field is required")))
      | .ok false => .ok ne := by
  unfold validateQuestion clientRequiredError
  cases shouldShowQuestion (.json q.conditionalRules) answers with
  | error e => rfl
  | ok visible =>
    cases hu : isUnanswered (getProperty answers q.questionKey) <;>
      cases visible <;> cases q.required <;> simp [hu]

/-- Under its recording condition the loop body of the submit route records
"<label> is required" and assigns nothing. -/
theorem submitStep_of_serverRequiredError (shouldShow : JsVal → AnswerMap → Except JsError Bool)
    (fieldMap : List (String × Json)) (answers : AnswerMap) (st : SubmitState) (q : Question)
    (h : serverRequiredError shouldShow answers q = .ok true) :
    submitStep shouldShow fieldMap answers st q =
      .ok ⟨st.airtableFields, st.errors ++ [q.label ++ " is required"]⟩ := by
  unfold serverRequiredError at h
  cases hs : shouldShow (.json q.conditionalRules) answers with
  | error e => rw [hs] at h; cases h
  | ok visible =>
    rw [hs] at h
    simp only [Except.ok.injEq, Bool.and_eq_true] at h
    obtain ⟨hv, hr, hu⟩ := h
    subst hv
    exact submitStep_required shouldShow fieldMap answers st q hs hr hu

/-- Off its recording condition the loop body treats the question as a
question that is not required. -/
theorem submitStep_of_not_serverRequiredError
    (shouldShow : JsVal → AnswerMap → Except JsError Bool) (fieldMap : List (String × Json))
    (answers : AnswerMap) (st : SubmitState) (q : Question)
    (h : serverRequiredError shouldShow answers q = .ok false) :
    submitStep shouldShow fieldMap answers st q =
      submitStep shouldShow fieldMap answers st { q with required := false } := by
  unfold serverRequiredError at h
  unfold submitStep
  cases hs : shouldShow (.json q.conditionalRules) answers with
  | error e => rfl
  | ok visible =>
    rw [hs] at h
    simp only [Except.ok.injEq] at h
    cases visible with
    | false => rfl
    | true =>
      simp only [Bool.true_and] at h
      simp only [Bool.not_true, Bool.false_eq_true, if_false, h, Bool.false_and]
      rfl

theorem setField_ne_nil (fields : List (String × JsVal)) (key : String) (v : JsVal)
    (h : fields ≠ [] ∨ key ≠ "__proto__") : setField fields key v ≠ [] := by
  unfold setField
  by_cases hk : key = "__proto__"
  · subst hk
    rcases h with h | h
    · simpa using h
    · exact absurd rfl h
  · have : (key == "__proto__") = false := by simpa using hk
    simp [this]

theorem validateErrors_ne_nil (answers : AnswerMap) (qs : List Question)
    (ne ne2 : List (String × JsVal)) (h : validateErrors answers qs ne = .ok ne2)
    (hne : ne ≠ []) : ne2 ≠ [] := by
  induction qs generalizing ne with
  | nil =>
    simp only [validateErrors, Except.ok.injEq] at h
    subst h
    exact hne
  | cons q qs ih =>
    simp only [validateErrors, validateQuestion_eq] at h
    cases hc : clientRequiredError answers q with
    | error e => rw [hc] at h; cases h
    | ok b =>
      rw [hc] at h
      cases b with
      | false => exact ih ne h hne
      | true => exact ih _ h (setField_ne_nil ne _ _ (Or.inl hne))

/-- The return value of `validate`: true exactly when no question is flagged,
for questions none of which is keyed `__proto__`. -/
theorem validate_eq_true_iff (answers : AnswerMap) (qs : List Question)
    (hkeys : ∀ q ∈ qs, q.questionKey ≠ "__proto__") :
    validate qs answers = .ok true ↔ ∀ q ∈ qs, clientRequiredError answers q = .ok false := by
  have hall : (∀ q ∈ qs, clientRequiredError answers q = .ok false) →
      ∀ ne, validateErrors answers qs ne = .ok ne := by
    intro h
    induction qs with
    | nil => intro ne; rfl
    | cons q qs ih =>
      intro ne
      simp only [validateErrors, validateQuestion_eq, h q (List.mem_cons_self _ _)]
      exact ih (fun q2 h2 => hkeys q2 (List.mem_cons_of_mem _ h2))
        (fun q2 h2 => h q2 (List.mem_cons_of_mem _ h2)) ne
  have hnil : ∀ (l : List Question) (ne : List (String × JsVal)),
      (∀ q ∈ l, q.questionKey ≠ "__proto__") → validateErrors answers l ne = .ok [] →
      ∀ q ∈ l, clientRequiredError answers q = .ok false := by
    intro l
    induction l with
    | nil => intro ne _ _ q hq; cases hq
    | cons x xs ih =>
      intro ne hk hrun q hq
      simp only [validateErrors, validateQuestion_eq] at hrun
      cases hc : clientRequiredError answers x with
      | error e => rw [hc] at hrun; cases hrun
      | ok b =>
        rw [hc] at hrun
        cases b with
        | true =>
          exact absurd rfl (validateErrors_ne_nil answers xs _ [] hrun
            (setField_ne_nil ne _ _ (Or.inr (hk x (List.mem_cons_self _ _)))))
        | false =>
          rcases List.mem_cons.mp hq with rfl | hq2
          · exact hc
          · exact ih ne (fun q2 h2 => hk q2 (List.mem_cons_of_mem _ h2)) hrun q hq2
  unfold validate
  constructor
  · intro h
    cases hrun : validateErrors answers qs [] with
    | error e => rw [hrun] at h; cases h
    | ok ne =>
      rw [hrun] at h
      simp only [Except.ok.injEq, beq_iff_eq, List.length_eq_zero] at h
      subst h
      exact hnil qs [] hkeys hrun
  · intro h
    rw [hall h []]
    rfl

/-- Required checks, client against server, where the two evaluators agree:
when the evaluator of the submit route gives on every rule set of the form
what the render-time evaluator gives, `validate` tests a question under the
very condition under which the loop body of the submit route records "<label>
is required" for it:
the callback of `validate` assigns its message exactly under that condition,
the loop body records the error under it and treats the question as not
required off it; and, for questions none of which is keyed `__proto__`,
`validate` returns true exactly when the server records no required-field
error. -/
theorem required_checks_agree (shouldShow : JsVal → AnswerMap → Except JsError Bool)
    (fieldMap : List (String × Json)) (answers : AnswerMap) (qs : List Question)
    (hsame : ∀ q ∈ qs, shouldShow (.json q.conditionalRules) answers =
      shouldShowQuestion (.json q.conditionalRules) answers) :
    (∀ q ∈ qs, clientRequiredError answers q = serverRequiredError shouldShow answers q) ∧
      (∀ q ∈ qs, ∀ ne, validateQuestion answers ne q =
        match serverRequiredError shouldShow answers q with
        | .error e => .error e
        | .ok true => .ok (setField ne q.questionKey (.json (.str "This field is required")))
        | .ok false => .ok ne) ∧
      (∀ q ∈ qs, ∀ st, serverRequiredError shouldShow answers q = .ok true →
        submitStep shouldShow fieldMap answers st q =
          .ok ⟨st.airtableFields, st.errors ++ [q.label ++ " is required"]⟩) ∧
      (∀ q ∈ qs, ∀ st, serverRequiredError shouldShow answers q = .ok false →
        submitStep shouldShow fieldMap answers st q =
          submitStep shouldShow fieldMap answers st { q with required := false }) ∧
      ((∀ q ∈ qs, q.questionKey ≠ "__proto__") →
        (validate qs answers = .ok true ↔
          ∀ q ∈ qs, serverRequiredError shouldShow answers q = .ok false)) := by
  have heq : ∀ q ∈ qs, clientRequiredError answers q = serverRequiredError shouldShow answers q := by
    intro q hq
    unfold clientRequiredError serverRequiredError
    rw [hsame q hq]
    cases shouldShowQuestion (.json q.conditionalRules) answers with
    | error e => rfl
    | ok visible => simp only [Bool.and_assoc]
  refine ⟨heq, ?_, ?_, ?_, ?_⟩
  · intro q hq ne
    rw [validateQuestion_eq, heq q hq]
  · intro q _ st h
    exact submitStep_of_serverRequiredError shouldShow fieldMap answers st q h
  · intro q _ st h
    exact submitStep_of_not_serverRequiredError shouldShow fieldMap answers st q h
  · intro hkeys
    rw [validate_eq_true_iff answers qs hkeys]
    constructor
    · intro h q hq
      rw [← heq q hq]
      exact h q hq
    · intro h q hq
      rw [heq q hq]
      exact h q hq

/-- An instance of the agreement above: of two required questions the first is
left unanswered; `validate` does not pass, and the submit route records the
required error for the first question. -/
theorem required_checks_agree_witness :
    validate
        [⟨"q1", "fldA", "Email", "singleLineText", true, .null, .obj []⟩,
          ⟨"q2", "fldB", "Name", "singleLineText", true, .null, .obj []⟩]
        [("q2", .str "Ada")] ≠ .ok true ∧
      submitStep (fun rules answers => .ok (backendShouldShowQuestion rules answers)) []
        [("q2", .str "Ada")] ⟨[], []⟩
        ⟨"q1", "fldA", "Email", "singleLineText", true, .null, .obj []⟩ =
          .ok ⟨[], ["Email is required"]⟩ :=
  have h := required_checks_agree
    (fun rules answers => .ok (backendShouldShowQuestion rules answers)) []
    [("q2", .str "Ada")]
    [⟨"q1", "fldA", "Email", "singleLineText", true, .null, .obj []⟩,
      ⟨"q2", "fldB", "Name", "singleLineText", true, .null, .obj []⟩]
    (by decide)
  ⟨fun hv => absurd ((h.2.2.2.2 (by decide)).mp hv _ (List.mem_cons_self _ _)) (by decide),
   h.2.2.1 _ (List.mem_cons_self _ _) ⟨[], []⟩ (by decide)⟩

/-- C23 (required checks, failing input): the form has one question, keyed
`__proto__`, required and without rules, and the answers map holds the empty
string under that key.  The condition under which `validate` flags the
question holds, as does the one under which the submit route records its
error; but the assignment `newErrors["__proto__"] = ...` creates no property,
so `validate` ends with no flagged question and returns true, while the submit
route, with any evaluator that shows a question without rules, records "Email
is required" and answers with status 400. -/
theorem validate_passes_submit_rejects (shouldShow : JsVal → AnswerMap → Except JsError Bool)
    (fieldMap : List (String × Json))
    (hnull : shouldShow (.json .null) [("__proto__", .str "")] = .ok true) :
    clientRequiredError [("__proto__", .str "")]
        ⟨"__proto__", "fldA", "Email", "singleLineText", true, .null, .obj []⟩ = .ok true ∧
      validateErrors [("__proto__", .str "")]
        [⟨"__proto__", "fldA", "Email", "singleLineText", true, .null, .obj []⟩] [] = .ok [] ∧
      validate [⟨"__proto__", "fldA", "Email", "singleLineText", true, .null, .obj []⟩]
        [("__proto__", .str "")] = .ok true ∧
      serverRequiredError shouldShow [("__proto__", .str "")]
        ⟨"__proto__", "fldA", "Email", "singleLineText", true, .null, .obj []⟩ = .ok true ∧
      submitOutcome shouldShow fieldMap [("__proto__", .str "")]
        [⟨"__proto__", "fldA", "Email", "singleLineText", true, .null, .obj []⟩] =
          .status400 ["Email is required"] := by
  refine ⟨by decide, rfl, by decide, ?_, ?_⟩
  · simp only [serverRequiredError, hnull]
    rfl
  · have hstep := submitStep_required shouldShow fieldMap [("__proto__", .str "")] ⟨[], []⟩
      ⟨"__proto__", "fldA", "Email", "singleLineText", true, .null, .obj []⟩ hnull rfl rfl
    simp only [submitOutcome, submitLoop, hstep]
    rfl

/-- The failing input of C23 with the render-time code as the evaluator of the
submit route: `validate` passes and the route answers with status 400. -/
theorem validate_passes_submit_rejects_witness :
    shouldShowQuestion (.json .null) [("__proto__", .str "")] = .ok true ∧
      validate [⟨"__proto__", "fldA", "Email", "singleLineText", true, .null, .obj []⟩]
        [("__proto__", .str "")] = .ok true ∧
      submitOutcome shouldShowQuestion [] [("__proto__", .str "")]
        [⟨"__proto__", "fldA", "Email", "singleLineText", true, .null, .obj []⟩] =
          .status400 ["Email is required"] :=
  ⟨rfl, (validate_passes_submit_rejects shouldShowQuestion [] rfl).2.2.1,
    (validate_passes_submit_rejects shouldShowQuestion [] rfl).2.2.2.2⟩

/-! ## The form builder: rule sets are never empty -/

theorem mem_updateField (l : List Question) (i : Nat) (u : FieldUpdates) (x : Question)
    (hx : x ∈ updateField l i u) : x ∈ l ∨ ∃ f ∈ l, x = f.withUpdates u := by
  induction l generalizing i with
  | nil => simp [updateField] at hx
  | cons f rest ih =>
    cases i with
    | zero =>
      simp only [updateField, List.mem_cons] at hx
      rcases hx with rfl | hx
      · exact Or.inr ⟨f, List.mem_cons_self _ _, rfl⟩
      · exact Or.inl (List.mem_cons_of_mem _ hx)
    | succ i =>
      simp only [updateField, List.mem_cons] at hx
      rcases hx with rfl | hx
      · exact Or.inl (List.mem_cons_self _ _)
      · rcases ih i hx with h | ⟨g, hg, hxg⟩
        · exact Or.inl (List.mem_cons_of_mem _ h)
        · exact Or.inr ⟨g, List.mem_cons_of_mem _ hg, hxg⟩

/-- Replacing the rules of one field by well-formed rules keeps every field's
rules well formed. -/
theorem updateField_rulesOk (l : List Question) (i : Nat) (r : Json)
    (hl : ∀ x ∈ l, RulesOk x.conditionalRules) (hr : RulesOk r) :
    ∀ x ∈ updateField l i (.conditionalRules r), RulesOk x.conditionalRules := by
  intro x hx
  rcases mem_updateField l i _ x hx with h | ⟨f, _, rfl⟩
  · exact hl x h
  · exact hr

theorem updateField_other_rulesOk (l : List Question) (i : Nat) (u : FieldUpdates)
    (hu : ∀ f : Question, (f.withUpdates u).conditionalRules = f.conditionalRules)
    (hl : ∀ x ∈ l, RulesOk x.conditionalRules) :
    ∀ x ∈ updateField l i u, RulesOk x.conditionalRules := by
  intro x hx
  rcases mem_updateField l i u x hx with h | ⟨f, hf, rfl⟩
  · exact hl x h
  · rw [hu f]
    exact hl f hf

theorem lookup_map_replace (props : List (String × Json)) (key k : String) (value : Json) :
    (props.map (fun p => if p.1 == key then (key, value) else p)).lookup k =
      if k == key then (props.lookup k).map (fun _ => value) else props.lookup k := by
  induction props with
  | nil => simp
  | cons p rest ih =>
    obtain ⟨pk, pv⟩ := p
    rw [List.map_cons]
    by_cases hpk : pk = key
    · have hhead : (if (pk == key) = true then (key, value) else (pk, pv)) = (key, value) :=
        if_pos (by simp [hpk])
      simp only [hhead]
      rw [List.lookup_cons, List.lookup_cons, ih, hpk]
      by_cases hk : k = key
      · have hk2 : (k == key) = true := by simp [hk]
        simp only [hk2, if_true, Option.map_some']
      · have hk2 : (k == key) = false := by simpa using hk
        simp only [hk2, Bool.false_eq_true, if_false]
    · have hpk2 : (pk == key) = false := by simpa using hpk
      have hhead : (if (pk == key) = true then (key, value) else (pk, pv)) = (pk, pv) :=
        if_neg (by simp [hpk])
      simp only [hhead]
      rw [List.lookup_cons, List.lookup_cons, ih]
      by_cases hk : k = pk
      · have hk2 : (k == pk) = true := by simp [hk]
        have hk3 : (k == key) = false := by rw [hk]; exact hpk2
        simp only [hk2, hk3, Bool.false_eq_true, if_false]
      · have hk2 : (k == pk) = false := by simpa using hk
        simp only [hk2]

/-- The object `{ ...props, [key]: value }` holds `value` under `key`. -/
theorem lookup_objectWith_self (props : List (String × Json)) (key : String) (value : Json) :
    (objectWith props key value).lookup key = some value := by
  unfold objectWith
  by_cases hany : props.any (fun p => p.1 == key) = true
  · simp only [hany, if_true, lookup_map_replace, beq_self_eq_true]
    obtain ⟨p, hp, hpk⟩ := List.any_eq_true.mp hany
    have hsome : (props.lookup key).isSome = true := by
      rw [List.lookup_isSome_iff]
      exact ⟨p, hp, by rw [beq_iff_eq] at hpk ⊢; exact hpk.symm⟩
    cases hl : props.lookup key with
    | none => rw [hl] at hsome; cases hsome
    | some v => rfl
  · have hnone : props.lookup key = none := by
      rw [List.lookup_eq_none_iff]
      intro p hp
      have : ¬ (p.1 == key) = true := fun h => hany (List.any_eq_true.mpr ⟨p, hp, h⟩)
      simp only [beq_iff_eq] at this
      simp only [bne_iff_ne, ne_eq]
      exact fun h => this h.symm
    simp only [hany, Bool.false_eq_true, if_false, List.lookup_append, hnone, Option.none_or]
    simp [List.lookup]

/-- The object `{ ...props, [key]: value }` holds under another key what
`props` holds. -/
theorem lookup_objectWith_other (props : List (String × Json)) (key k : String) (value : Json)
    (hk : k ≠ key) : (objectWith props key value).lookup k = props.lookup k := by
  have hk2 : (k == key) = false := by simpa using hk
  unfold objectWith
  by_cases hany : props.any (fun p => p.1 == key) = true
  · simp only [hany, if_true, lookup_map_replace, hk2, Bool.false_eq_true, if_false]
  · simp only [hany, Bool.false_eq_true, if_false, List.lookup_append]
    cases props.lookup k with
    | some v => rfl
    | none => simp [List.lookup, hk2]

/-- Replacing the conditions of a well-formed rule set by a non-empty sequence
gives a well-formed rule set. -/
theorem rulesOk_with_conditions (props : List (String × Json)) (c : Json) (cs : List Json)
    (hlogic : props.lookup "logic" = some (.str "AND") ∨ props.lookup "logic" = some (.str "OR")) :
    RulesOk (.obj (objectWith props "conditions" (.arr (c :: cs)))) := by
  refine Or.inr ⟨_, c, cs, rfl, lookup_objectWith_self _ _ _, ?_⟩
  rw [lookup_objectWith_other props "conditions" "logic" _ (by decide)]
  exact hlogic

/-- What a field with conditions stores: the reads of the handlers on a
well-formed, non-null rule set. -/
theorem rulesOk_stored (rules : Json) (stored : JsVal) (h : RulesOk rules)
    (hread : readField (.json rules) "conditions" = .ok stored) :
    ∃ props c cs, rules = .obj props ∧ stored = .json (.arr (c :: cs)) ∧
      (props.lookup "logic" = some (.str "AND") ∨ props.lookup "logic" = some (.str "OR")) := by
  rcases h with h | ⟨props, c, cs, hr, hc, hlogic⟩
  · subst h
    cases hread
  · subst hr
    refine ⟨props, c, cs, rfl, ?_, hlogic⟩
    simp only [readField, getProperty, hc, Except.ok.injEq] at hread
    exact hread.symm

theorem updateConditionAt_cons (c : Json) (cs : List Json) (j : Nat) (u : ConditionUpdates) :
    ∃ c2 cs2, updateConditionAt (c :: cs) j u = c2 :: cs2 := by
  cases j with
  | zero => exact ⟨_, _, rfl⟩
  | succ j => exact ⟨_, _, rfl⟩

theorem addCondition_rulesOk (l next : List Question) (i : Nat)
    (hl : ∀ x ∈ l, RulesOk x.conditionalRules) (h : addCondition l i = .ok next) :
    ∀ x ∈ next, RulesOk x.conditionalRules := by
  unfold addCondition at h
  cases hf : l[i]? with
  | none => rw [hf] at h; cases h
  | some field =>
    rw [hf] at h
    simp only at h
    split at h
    · cases h
      exact updateField_rulesOk l i _ hl
        (Or.inr ⟨_, newCondition l i, [], rfl, rfl, Or.inl rfl⟩)
    · cases h
      exact hl

theorem updateCondition_rulesOk (l next : List Question) (i j : Nat) (u : ConditionUpdates)
    (hl : ∀ x ∈ l, RulesOk x.conditionalRules) (h : updateCondition l i j u = .ok next) :
    ∀ x ∈ next, RulesOk x.conditionalRules := by
  unfold updateCondition at h
  cases hf : l[i]? with
  | none => rw [hf] at h; cases h
  | some field =>
    rw [hf] at h
    simp only at h
    cases hread : readField (.json field.conditionalRules) "conditions" with
    | error e => rw [hread] at h; cases h
    | ok stored =>
      rw [hread] at h
      obtain ⟨props, c, cs, hr, hs, hlogic⟩ :=
        rulesOk_stored _ stored (hl field (List.getElem?_mem hf)) hread
      subst hs
      simp only [arraySpread, Except.ok.injEq] at h
      subst h
      obtain ⟨c2, cs2, hc2⟩ := updateConditionAt_cons c cs j u
      rw [hc2, hr]
      exact updateField_rulesOk l i _ hl (rulesOk_with_conditions props c2 cs2 hlogic)

theorem addConditionToField_rulesOk (l next : List Question) (i : Nat)
    (hl : ∀ x ∈ l, RulesOk x.conditionalRules) (h : addConditionToField l i = .ok next) :
    ∀ x ∈ next, RulesOk x.conditionalRules := by
  unfold addConditionToField at h
  cases hf : l[i]? with
  | none => rw [hf] at h; cases h
  | some field =>
    rw [hf] at h
    simp only at h
    cases hread : readField (.json field.conditionalRules) "conditions" with
    | error e => rw [hread] at h; cases h
    | ok stored =>
      rw [hread] at h
      obtain ⟨props, c, cs, hr, hs, hlogic⟩ :=
        rulesOk_stored _ stored (hl field (List.getElem?_mem hf)) hread
      subst hs
      simp only [arraySpread, Except.ok.injEq] at h
      subst h
      rw [hr, List.cons_append]
      exact updateField_rulesOk l i _ hl (rulesOk_with_conditions props c _ hlogic)

theorem removeCondition_rulesOk (l next : List Question) (i j : Nat)
    (hl : ∀ x ∈ l, RulesOk x.conditionalRules) (h : removeCondition l i j = .ok next) :
    ∀ x ∈ next, RulesOk x.conditionalRules := by
  unfold removeCondition at h
  cases hf : l[i]? with
  | none => rw [hf] at h; cases h
  | some field =>
    rw [hf] at h
    simp only at h
    cases hread : readField (.json field.conditionalRules) "conditions" with
    | error e => rw [hread] at h; cases h
    | ok stored =>
      rw [hread] at h
      obtain ⟨props, c, cs, hr, hs, hlogic⟩ :=
        rulesOk_stored _ stored (hl field (List.getElem?_mem hf)) hread
      subst hs
      simp only [JsVal.asArray] at h
      split at h
      · cases h
        exact updateField_rulesOk l i _ hl (Or.inl rfl)
      · cases h
        cases hrest : (c :: cs).eraseIdx j with
        | nil => simp [hrest] at *
        | cons c2 cs2 =>
          rw [hr]
          exact updateField_rulesOk l i _ hl (rulesOk_with_conditions props c2 cs2 hlogic)

theorem selectLogic_rulesOk (l : List Question) (i : Nat) (option : LogicOption)
    (hl : ∀ x ∈ l, RulesOk x.conditionalRules) :
    ∀ x ∈ selectLogic l i option, RulesOk x.conditionalRules := by
  unfold selectLogic
  cases hf : l[i]? with
  | none => exact hl
  | some field =>
    simp only
    split
    · rename_i ht
      rcases hl field (List.getElem?_mem hf) with hnull | ⟨props, c, cs, hr, hc, _⟩
      · rw [hnull] at ht
        cases ht
      · rw [hr]
        apply updateField_rulesOk l i _ hl
        refine Or.inr ⟨_, c, cs, rfl, ?_, ?_⟩
        · simp only [objectSpread]
          rw [lookup_objectWith_other props "logic" "conditions" _ (by decide)]
          exact hc
        · rw [lookup_objectWith_self]
          cases option
          · exact Or.inl rfl
          · exact Or.inr rfl
    · exact hl

theorem handleFieldToggle_rulesOk (l : List Question) (field : AirtableField)
    (hl : ∀ x ∈ l, RulesOk x.conditionalRules) :
    ∀ x ∈ handleFieldToggle l field, RulesOk x.conditionalRules := by
  unfold handleFieldToggle
  split
  · intro x hx
    exact hl x (List.mem_filter.mp hx).1
  · intro x hx
    rcases List.mem_append.mp hx with h | h
    · exact hl x h
    · rw [List.mem_singleton] at h
      subst h
      exact Or.inl rfl

/-- Every event of the builder keeps the rules of every selected field
well formed. -/
theorem applyOp_rulesOk (l : List Question) (op : BuilderOp)
    (hl : ∀ x ∈ l, RulesOk x.conditionalRules) :
    ∀ x ∈ applyOp l op, RulesOk x.conditionalRules := by
  cases op with
  | toggle field => exact handleFieldToggle_rulesOk l field hl
  | setLabel index label => exact updateField_other_rulesOk l index _ (fun _ => rfl) hl
  | setRequired index required => exact updateField_other_rulesOk l index _ (fun _ => rfl) hl
  | selectLogic index option => exact selectLogic_rulesOk l index option hl
  | addCondition i =>
    simp only [applyOp]
    cases h : addCondition l i with
    | error e => exact hl
    | ok next => exact addCondition_rulesOk l next i hl h
  | addConditionToField i =>
    simp only [applyOp]
    cases h : addConditionToField l i with
    | error e => exact hl
    | ok next => exact addConditionToField_rulesOk l next i hl h
  | updateCondition i j u =>
    simp only [applyOp]
    cases h : updateCondition l i j u with
    | error e => exact hl
    | ok next => exact updateCondition_rulesOk l next i j u hl h
  | removeCondition i j =>
    simp only [applyOp]
    cases h : removeCondition l i j with
    | error e => exact hl
    | ok next => exact removeCondition_rulesOk l next i j hl h

theorem foldl_applyOp_rulesOk (ops : List BuilderOp) (l : List Question)
    (hl : ∀ x ∈ l, RulesOk x.conditionalRules) :
    ∀ x ∈ ops.foldl applyOp l, RulesOk x.conditionalRules := by
  induction ops generalizing l with
  | nil => exact hl
  | cons op ops ih => exact ih (applyOp l op) (applyOp_rulesOk l op hl)

/-- C29 (no rule set without conditions): after every sequence of builder
events from the empty selection, the `conditionalRules` of each selected field
is `null` or a rule set with a non-empty conditions sequence and logic "AND"
or "OR"; and removing the only condition of a field sets its
`conditionalRules` to `null`. -/
theorem builder_rulesOk (ops : List BuilderOp) :
    (∀ q ∈ ops.foldl applyOp [], RulesOk q.conditionalRules) ∧
      (∀ (selectedFields : List Question) (i : Nat) (field : Question)
        (props : List (String × Json)) (c : Json),
        selectedFields[i]? = some field → field.conditionalRules = .obj props →
        props.lookup "conditions" = some (.arr [c]) →
        removeCondition selectedFields i 0 =
          .ok (updateField selectedFields i (.conditionalRules .null))) := by
  constructor
  · exact foldl_applyOp_rulesOk ops [] (fun x hx => by cases hx)
  · intro selectedFields i field props c hf hr hc
    unfold removeCondition
    rw [hf]
    simp only [hr, readField, getProperty, hc, JsVal.asArray]
    rfl

/-- An instance of C29: two fields are selected, the second gets two
conditions, one is edited, the logic is set to "OR", and both conditions are
removed again; the rules of both fields are well formed, and `null` at the
end. -/
theorem builder_rulesOk_witness :
    (∀ q ∈ List.foldl applyOp []
        [.toggle ⟨"fldA", "Agree", "singleSelect", .obj []⟩,
          .toggle ⟨"fldB", "Details", "longText", .obj []⟩,
          .addCondition 1, .addConditionToField 1,
          .updateCondition 1 0 (.value "yes"), .selectLogic 1 .OR,
          .removeCondition 1 1, .removeCondition 1 0],
        RulesOk q.conditionalRules) ∧
      (List.foldl applyOp []
        [.toggle ⟨"fldA", "Agree", "singleSelect", .obj []⟩,
          .toggle ⟨"fldB", "Details", "longText", .obj []⟩,
          .addCondition 1, .addConditionToField 1,
          .updateCondition 1 0 (.value "yes"), .selectLogic 1 .OR,
          .removeCondition 1 1]).map
        (fun q => (q.questionKey, (JsVal.json q.conditionalRules).truthy,
          shouldShowQuestion (.json q.conditionalRules) [("q1", .str "yes")])) =
        [("q1", false, .ok true), ("q2", true, .ok true)] ∧
      (List.foldl applyOp []
        [.toggle ⟨"fldA", "Agree", "singleSelect", .obj []⟩,
          .toggle ⟨"fldB", "Details", "longText", .obj []⟩,
          .addCondition 1, .addConditionToField 1,
          .updateCondition 1 0 (.value "yes"), .selectLogic 1 .OR,
          .removeCondition 1 1, .removeCondition 1 0]).map
        (fun q => (q.questionKey, (JsVal.json q.conditionalRules).truthy)) =
        [("q1", false), ("q2", false)] :=
  ⟨(builder_rulesOk _).1, by decide, by decide⟩

end Airtable
